import Mathlib

/-!
Shallow embedding of the dns-weekend-deno DNS codec and iterative resolver
(final tutorial snapshot: `SeekableBytesReader` in `utils.ts` plus the
`decodeName`/`parseDNSPacket`/`resolve` source file).

Modelling conventions:
* A JS `Uint8Array` is a `List Nat`; buffers produced by the network contain
  values `< 256`, but the embedding keeps plain `Nat` and threads bounds as
  hypotheses where a claim needs them.
* A JS string is modelled by its UTF-8 byte sequence (`List Nat`).  Under this
  identification `TextEncoder.encode` and `TextDecoder.decode` (on valid UTF-8)
  are identities, and `domainName.split(".")` is `List.splitOn 46` (the byte 46
  is `'.'`, which can never occur inside a UTF-8 multi-byte sequence).
* Thrown exceptions become the `err` outcome of `DecodeResult`.  The JS
  recursion `decodeName` / `decodeCompressedName` has no depth bound; the
  embedding adds an explicit fuel argument and a distinguished `outOfFuel`
  outcome, so that "the original recurses for ever" is expressible as "every
  fuel bound is exhausted".
* `Math.random` is external (the spec lists the randomness source as an
  external collaborator), so `buildQuery` takes the transaction id as an
  argument; the UDP transport is likewise passed to `resolve` as a function
  from (nameserver, domainName, recordType) to reply bytes.
-/

namespace DnsWeekend

/-- Outcome of running an embedded JS computation: a value, a thrown
exception, or exhaustion of the explicit recursion bound (the JS original has
no such bound, so `outOfFuel` marks runs that recurse deeper than the given
fuel). -/
inductive DecodeResult (α : Type) where
  | ok (val : α)
  | err
  | outOfFuel
deriving DecidableEq, Repr

def TYPE_A : Nat := 1
def TYPE_NS : Nat := 2
def TYPE_TXT : Nat := 16
def CLASS_IN : Nat := 1

/-- utils.ts: `packUnsignedShortsBigEndian`.  `DataView.setUint16` stores each
value modulo 2^16, high byte first. -/
def packUnsignedShortsBigEndian (values : List Nat) : List Nat :=
  (values.map (fun v => [v % 65536 / 256, v % 256])).flatten

/-- utils.ts: `unpackUnsignedShortsBigEndian`, reading big-endian 16-bit
values pairwise.  (On an odd-length buffer the JS `getUint16` of the final
lone byte throws; every call site in the source passes an even length, so the
embedding is total and simply ignores a trailing byte.) -/
def unpackUnsignedShortsBigEndian : List Nat → List Nat
  | b1 :: b2 :: rest => (b1 * 256 + b2) :: unpackUnsignedShortsBigEndian rest
  | _ => []

/-- utils.ts: `joinUint8ArrayWithDot`.  The accumulator starts at `-1`, so for
an empty parts list the computed total length is `-1` and `new Uint8Array(-1)`
throws (`none` here).  Otherwise the loop writes each part followed by a dot;
the dot written after the final part lands one past the end of the typed array
and is silently dropped, which the `take totalLength` models. -/
def joinUint8ArrayWithDot (parts : List (List Nat)) : Option (List Nat) :=
  let totalLength : Int := parts.foldl (fun acc part => acc + part.length + 1) (-1)
  if totalLength < 0 then none
  else some (((parts.map (fun part => part ++ [46])).flatten).take totalLength.toNat)

/-- utils.ts (seekable part): the byte cursor.  `data` is the underlying
buffer and `position` the private cursor. -/
structure SeekableBytesReader where
  data : List Nat
  position : Nat
deriving DecidableEq, Repr

/-- The function `SeekableBytesReader.read`: throws (`none`) iff the cursor already sits at
or beyond the end of the buffer; otherwise returns the bytes from `position`
to `min (position + n) data.length` — possibly fewer than `n` — and advances
the cursor to that end position. -/
def SeekableBytesReader.read (r : SeekableBytesReader) (n : Nat) :
    Option (List Nat × SeekableBytesReader) :=
  if r.data.length ≤ r.position then none
  else
    let endPosition := min (r.position + n) r.data.length
    some ((r.data.drop r.position).take (endPosition - r.position), ⟨r.data, endPosition⟩)

/-- The function `SeekableBytesReader.seek`: throws (`none`) iff the target offset is
negative or beyond the buffer length (offset = length is allowed). -/
def SeekableBytesReader.seek (r : SeekableBytesReader) (offset : Int) :
    Option SeekableBytesReader :=
  if offset < 0 ∨ (r.data.length : Int) < offset then none
  else some ⟨r.data, offset.toNat⟩

def SeekableBytesReader.currentPosition (r : SeekableBytesReader) : Nat :=
  r.position

/-- The function `ipToString` turns each byte into its decimal digits (this helper models
JS `Number.prototype.toString` on a natural number). -/
def natToDecBytesAux : Nat → Nat → List Nat
  | 0, _ => []
  | fuel + 1, n => if n < 10 then [48 + n] else natToDecBytesAux fuel (n / 10) ++ [48 + n % 10]

def natToDecBytes (n : Nat) : List Nat := natToDecBytesAux (n + 1) n

/-- The function `ipToString`: `Array.from(ip).join(".")`. -/
def ipToString (ip : List Nat) : List Nat :=
  List.intercalate [46] (ip.map natToDecBytes)

/-! ## Data model (the four classes of the source) -/

structure DNSHeader where
  id : Nat
  flags : Nat
  numQuestions : Nat
  numAnswers : Nat
  numAuthorities : Nat
  numAdditionals : Nat
deriving DecidableEq, Repr

structure DNSQuestion where
  name : List Nat
  type_ : Nat
  class_ : Nat
deriving DecidableEq, Repr

/-- The source's `DNSRecord.data` field has TS type `Uint8Array | string`;
the two constructors keep the runtime distinction (`str` for the dotted
rendering of an A address, `bytes` for everything else). -/
inductive RecordData where
  | bytes (val : List Nat)
  | str (val : List Nat)
deriving DecidableEq, Repr

structure DNSRecord where
  name : List Nat
  type_ : Nat
  class_ : Nat
  ttl : Nat
  data : RecordData
deriving DecidableEq, Repr

structure DNSPacket where
  header : DNSHeader
  questions : List DNSQuestion
  answers : List DNSRecord
  authorities : List DNSRecord
  additionals : List DNSRecord
deriving DecidableEq, Repr

/-! ## Encoding (Part 1 of the source) -/

def headerToBytes (header : DNSHeader) : List Nat :=
  packUnsignedShortsBigEndian
    [header.id, header.flags, header.numQuestions, header.numAnswers,
      header.numAuthorities, header.numAdditionals]

def questionToBytes (question : DNSQuestion) : List Nat :=
  question.name ++ packUnsignedShortsBigEndian [question.type_, question.class_]

/-- The function `encodeDnsName`: split the (UTF-8 bytes of the) domain name on `'.'`,
emit one length byte per part (`new Uint8Array([len])` truncates mod 256)
followed by the part, and terminate with a zero byte. -/
def encodeDnsName (domainName : List Nat) : List Nat :=
  ((domainName.splitOn 46).map (fun part => (part.length % 256) :: part)).flatten ++ [0]

/-- The function `buildQuery` of the final snapshot: flags 0 (no recursion-desired bit),
one question, class IN.  The random 16-bit id is passed in. -/
def buildQuery (id : Nat) (domainName : List Nat) (recordType : Nat) : List Nat :=
  headerToBytes ⟨id, 0, 1, 0, 0, 0⟩ ++
    questionToBytes ⟨encodeDnsName domainName, recordType, CLASS_IN⟩

/-! ## Decoding (Part 2 of the source)

The decode functions thread the reader explicitly as the pair
(`data`, cursor position); `data` never changes, so only the position moves.
The source's `while` loop over labels and the mutual recursion
`decodeName` / `decodeCompressedName` are fused into the fuel-indexed
`decodeNameCore`, which returns the collected parts list; `decodeName` and
`decodeCompressedName` below recover the source's two entry points, and the
unfolding lemmas further down re-establish the mutual-recursive reading. -/

/-- Core of `decodeName`: the label-collecting loop.  A zero length byte ends
the name; a length byte with `length & 0b1100_0000` nonzero is handled as a
compression pointer (read one more byte, combine, bounds-check the seek,
decode recursively from the pointer target, join, push the joined name as a
single part, restore the cursor just past the two pointer bytes, and break);
any other nonzero byte is a literal label length whose bytes are read next. -/
def decodeNameCore (data : List Nat) : Nat → Nat → DecodeResult (List (List Nat) × Nat)
  | 0, _ => .outOfFuel
  | fuel + 1, pos =>
    match SeekableBytesReader.read ⟨data, pos⟩ 1 with
    | none => .err
    | some (lenBytes, r1) =>
      let length := lenBytes.headD 0
      if length = 0 then .ok ([], r1.position)
      else if length &&& 192 ≠ 0 then
        match SeekableBytesReader.read ⟨data, r1.position⟩ 1 with
        | none => .err
        | some (ptrBytes, r2) =>
          let pointer := (unpackUnsignedShortsBigEndian [length &&& 63, ptrBytes.headD 0]).headD 0
          match SeekableBytesReader.seek ⟨data, r2.position⟩ (pointer : Int) with
          | none => .err
          | some r3 =>
            match decodeNameCore data fuel r3.position with
            | .ok (innerParts, _) =>
              match joinUint8ArrayWithDot innerParts with
              | none => .err
              | some name => .ok ([name], r2.position)
            | .err => .err
            | .outOfFuel => .outOfFuel
      else
        match SeekableBytesReader.read ⟨data, r1.position⟩ length with
        | none => .err
        | some (part, r2) =>
          match decodeNameCore data fuel r2.position with
          | .ok (parts, endPos) => .ok (part :: parts, endPos)
          | .err => .err
          | .outOfFuel => .outOfFuel

/-- The function `decodeName`: run the label loop, then join the parts with dots. -/
def decodeName (data : List Nat) (fuel pos : Nat) : DecodeResult (List Nat × Nat) :=
  match decodeNameCore data fuel pos with
  | .ok (parts, endPos) =>
    match joinUint8ArrayWithDot parts with
    | none => .err
    | some name => .ok (name, endPos)
  | .err => .err
  | .outOfFuel => .outOfFuel

/-- The function `decodeCompressedName length reader` as a standalone function (the cursor
sits on the byte after the `length` byte): read the second pointer byte,
combine via `unpackUnsignedShortsBigEndian`, remember the position after the
pointer, seek to the target, decode a name there, and restore the cursor
(the restoring `seek` is to a position already known to be in range). -/
def decodeCompressedName (data : List Nat) (fuel : Nat) (length pos : Nat) :
    DecodeResult (List Nat × Nat) :=
  match SeekableBytesReader.read ⟨data, pos⟩ 1 with
  | none => .err
  | some (ptrBytes, r2) =>
    let pointer := (unpackUnsignedShortsBigEndian [length &&& 63, ptrBytes.headD 0]).headD 0
    match SeekableBytesReader.seek ⟨data, r2.position⟩ (pointer : Int) with
    | none => .err
    | some r3 =>
      match decodeName data fuel r3.position with
      | .ok (name, _) => .ok (name, r2.position)
      | .err => .err
      | .outOfFuel => .outOfFuel

/-- Core of `decodeNameSimple` (no compression handling): collect
length-prefixed labels until a zero byte. -/
def decodeNameSimpleCore (data : List Nat) : Nat → Nat → DecodeResult (List (List Nat) × Nat)
  | 0, _ => .outOfFuel
  | fuel + 1, pos =>
    match SeekableBytesReader.read ⟨data, pos⟩ 1 with
    | none => .err
    | some (lenBytes, r1) =>
      let length := lenBytes.headD 0
      if length = 0 then .ok ([], r1.position)
      else
        match SeekableBytesReader.read ⟨data, r1.position⟩ length with
        | none => .err
        | some (part, r2) =>
          match decodeNameSimpleCore data fuel r2.position with
          | .ok (parts, endPos) => .ok (part :: parts, endPos)
          | .err => .err
          | .outOfFuel => .outOfFuel

def decodeNameSimple (data : List Nat) (fuel pos : Nat) : DecodeResult (List Nat × Nat) :=
  match decodeNameSimpleCore data fuel pos with
  | .ok (parts, endPos) =>
    match joinUint8ArrayWithDot parts with
    | none => .err
    | some name => .ok (name, endPos)
  | .err => .err
  | .outOfFuel => .outOfFuel

/-- The function `parseHeader`: read 12 bytes and unpack six big-endian 16-bit fields.
(When fewer than 12 bytes remain the JS `read` silently returns a short
buffer and the header fields come out as `undefined`; no claim exercises that
path and the embedding treats it as a decode failure.) -/
def parseHeader (data : List Nat) (pos : Nat) : DecodeResult (DNSHeader × Nat) :=
  match SeekableBytesReader.read ⟨data, pos⟩ 12 with
  | none => .err
  | some (bytes, r1) =>
    if bytes.length < 12 then .err
    else
      let items := unpackUnsignedShortsBigEndian bytes
      .ok (⟨items.getD 0 0, items.getD 1 0, items.getD 2 0, items.getD 3 0,
            items.getD 4 0, items.getD 5 0⟩, r1.position)

/-- The function `parseQuestion`: simple name, then 4 bytes read as two big-endian 16-bit
fields via a `DataView` (which throws on a short buffer). -/
def parseQuestion (data : List Nat) (fuel pos : Nat) : DecodeResult (DNSQuestion × Nat) :=
  match decodeNameSimple data fuel pos with
  | .ok (name, pos1) =>
    match SeekableBytesReader.read ⟨data, pos1⟩ 4 with
    | none => .err
    | some (bytes, r2) =>
      if bytes.length < 4 then .err
      else
        .ok (⟨name, bytes.getD 0 0 * 256 + bytes.getD 1 0,
              bytes.getD 2 0 * 256 + bytes.getD 3 0⟩, r2.position)
  | .err => .err
  | .outOfFuel => .outOfFuel

/-- The function `parseRecord`: compressed name, 10 fixed bytes (type, class, ttl,
data length, all big-endian, read through a `DataView` that throws when the
10-byte read came back short), then the type-dependent payload: NS decodes a
name, A reads 4 bytes and renders them dotted-decimal, anything else reads
`dataLen` raw bytes. -/
def parseRecord (data : List Nat) (fuel pos : Nat) : DecodeResult (DNSRecord × Nat) :=
  match decodeName data fuel pos with
  | .ok (name, pos1) =>
    match SeekableBytesReader.read ⟨data, pos1⟩ 10 with
    | none => .err
    | some (bytes, r2) =>
      if bytes.length < 10 then .err
      else
        let type_ := bytes.getD 0 0 * 256 + bytes.getD 1 0
        let class_ := bytes.getD 2 0 * 256 + bytes.getD 3 0
        let ttl := ((bytes.getD 4 0 * 256 + bytes.getD 5 0) * 256 + bytes.getD 6 0) * 256
          + bytes.getD 7 0
        let dataLen := bytes.getD 8 0 * 256 + bytes.getD 9 0
        if type_ = TYPE_NS then
          match decodeName data fuel r2.position with
          | .ok (nsName, pos3) => .ok (⟨name, type_, class_, ttl, .bytes nsName⟩, pos3)
          | .err => .err
          | .outOfFuel => .outOfFuel
        else if type_ = TYPE_A then
          match SeekableBytesReader.read ⟨data, r2.position⟩ 4 with
          | none => .err
          | some (ipBytes, r3) =>
            .ok (⟨name, type_, class_, ttl, .str (ipToString ipBytes)⟩, r3.position)
        else
          match SeekableBytesReader.read ⟨data, r2.position⟩ dataLen with
          | none => .err
          | some (raw, r3) => .ok (⟨name, type_, class_, ttl, .bytes raw⟩, r3.position)
  | .err => .err
  | .outOfFuel => .outOfFuel

/-- The `for` loop of `parseDNSPacket` over questions. -/
def parseQuestions (data : List Nat) (fuel : Nat) : Nat → Nat → DecodeResult (List DNSQuestion × Nat)
  | 0, pos => .ok ([], pos)
  | n + 1, pos =>
    match parseQuestion data fuel pos with
    | .ok (q, pos1) =>
      match parseQuestions data fuel n pos1 with
      | .ok (qs, endPos) => .ok (q :: qs, endPos)
      | .err => .err
      | .outOfFuel => .outOfFuel
    | .err => .err
    | .outOfFuel => .outOfFuel

/-- The `for` loops of `parseDNSPacket` over record sections. -/
def parseRecords (data : List Nat) (fuel : Nat) : Nat → Nat → DecodeResult (List DNSRecord × Nat)
  | 0, pos => .ok ([], pos)
  | n + 1, pos =>
    match parseRecord data fuel pos with
    | .ok (r, pos1) =>
      match parseRecords data fuel n pos1 with
      | .ok (rs, endPos) => .ok (r :: rs, endPos)
      | .err => .err
      | .outOfFuel => .outOfFuel
    | .err => .err
    | .outOfFuel => .outOfFuel

/-- The function `parseDNSPacket`: header, then exactly the counted number of questions,
answers, authorities and additionals, in that order. -/
def parseDNSPacket (data : List Nat) (fuel : Nat) : DecodeResult DNSPacket :=
  match parseHeader data 0 with
  | .ok (header, pos1) =>
    match parseQuestions data fuel header.numQuestions pos1 with
    | .ok (questions, pos2) =>
      match parseRecords data fuel header.numAnswers pos2 with
      | .ok (answers, pos3) =>
        match parseRecords data fuel header.numAuthorities pos3 with
        | .ok (authorities, pos4) =>
          match parseRecords data fuel header.numAdditionals pos4 with
          | .ok (additionals, _) => .ok ⟨header, questions, answers, authorities, additionals⟩
          | .err => .err
          | .outOfFuel => .outOfFuel
        | .err => .err
        | .outOfFuel => .outOfFuel
      | .err => .err
      | .outOfFuel => .outOfFuel
    | .err => .err
    | .outOfFuel => .outOfFuel
  | .err => .err
  | .outOfFuel => .outOfFuel

/-! ## The iterative resolver (Part 3 of the source) -/

/-- JS truthiness of a `Uint8Array | string` value: objects are always
truthy, a string is truthy iff nonempty. -/
def jsTruthy : RecordData → Bool
  | .bytes _ => true
  | .str s => !s.isEmpty

/-- The raw value of a `RecordData`, as the JS `as string` casts use it
(a cast has no runtime effect). -/
def RecordData.asString : RecordData → List Nat
  | .bytes b => b
  | .str s => s

/-- The function `getAnswer`: the `data` of the first answer record of type A, or the
empty string.  (The JS returns `answer.data as string` unchanged.) -/
def getAnswer (packet : DNSPacket) : RecordData :=
  match packet.answers.find? (fun answer => answer.type_ == TYPE_A) with
  | some answer => answer.data
  | none => .str []

/-- The function `getNameserverIp`: the `data` of the first additional record of type A,
or the empty string. -/
def getNameserverIp (packet : DNSPacket) : RecordData :=
  match packet.additionals.find? (fun additional => additional.type_ == TYPE_A) with
  | some additional => additional.data
  | none => .str []

/-- The function `getNameserver`: `TextDecoder` text of the first authority record of type
NS, or the empty string.  Strings are modelled as UTF-8 bytes, so the decode
is the identity on the stored bytes.  (For a record whose `data` is already a
string the JS `decoder.decode` would throw; records of type NS produced by
`parseRecord` always carry bytes, so that path is unreachable on decoded
packets and the embedding just returns the string.) -/
def getNameserver (packet : DNSPacket) : List Nat :=
  match packet.authorities.find? (fun answer => answer.type_ == TYPE_NS) with
  | some answer => answer.data.asString
  | none => []

/-- The decision `resolve` takes after decoding one reply. -/
inductive ResolveDecision where
  | answer (ip : RecordData)
  | useGlue (nsIP : RecordData)
  | recurse (nsDomain : List Nat)
  | fail
deriving DecidableEq, Repr

/-- The body of `resolve`'s loop after `parseDNSPacket`: test `ip`, then
`nsIP`, then `nsDomain` for truthiness, else throw. -/
def resolveStep (packet : DNSPacket) : ResolveDecision :=
  let ip := getAnswer packet
  let nsIP := getNameserverIp packet
  let nsDomain := getNameserver packet
  if jsTruthy ip then .answer ip
  else if jsTruthy nsIP then .useGlue nsIP
  else if !nsDomain.isEmpty then .recurse nsDomain
  else .fail

/-- The hardcoded root nameserver "198.41.0.4". -/
def rootNameserver : List Nat := [49, 57, 56, 46, 52, 49, 46, 48, 46, 52]

/-- The function `resolve`, with the UDP transport abstracted as `network nameserver
domainName recordType = reply bytes` and the unbounded `while (true)` loop
(plus the recursion through nameserver names) bounded by fuel.  Each
iteration sends a query, decodes the reply with `parseDNSPacket`, and acts on
`resolveStep`: answer - return it; glue - loop with the new nameserver;
authority NS - recursively resolve that name with TYPE_A from the root, then
loop with the result; otherwise throw. -/
def resolve (network : List Nat → List Nat → Nat → List Nat) :
    Nat → List Nat → Nat → List Nat → DecodeResult (List Nat)
  | 0, _, _, _ => .outOfFuel
  | fuel + 1, domainName, recortType, nameserver =>
    match parseDNSPacket (network nameserver domainName recortType) (fuel + 1) with
    | .ok response =>
      match resolveStep response with
      | .answer (.str ip) => .ok ip
      | .answer (.bytes b) => .ok b
      | .useGlue nsIP => resolve network fuel domainName recortType nsIP.asString
      | .recurse nsDomain =>
        match resolve network fuel nsDomain TYPE_A rootNameserver with
        | .ok nameserver2 => resolve network fuel domainName recortType nameserver2
        | .err => .err
        | .outOfFuel => .outOfFuel
      | .fail => .err
    | .err => .err
    | .outOfFuel => .outOfFuel

/-! ## Helper lemmas -/

theorem take_min_length {α : Type} (l : List α) (n : Nat) :
    l.take (min n l.length) = l.take n := by
  rcases le_total n l.length with h | h
  · rw [min_eq_left h]
  · rw [min_eq_right h, List.take_length, List.take_of_length_le h]

/-- An in-range `read` returns `take n` of the remaining bytes and moves the
cursor to `min (position + n) length`. -/
theorem read_of_lt (data : List Nat) (pos n : Nat) (h : pos < data.length) :
    SeekableBytesReader.read ⟨data, pos⟩ n =
      some ((data.drop pos).take n, ⟨data, min (pos + n) data.length⟩) := by
  rw [SeekableBytesReader.read]
  simp only [if_neg (not_le.mpr h)]
  have harith : min (pos + n) data.length - pos = min n (data.length - pos) := by omega
  rw [harith]
  have : min n (data.length - pos) = min n (data.drop pos).length := by
    rw [List.length_drop]
  rw [this, take_min_length]

/-- Reading a block that lies fully inside the buffer returns exactly that
block.  `data`, `pos` and `n` are given by equations so the lemma applies
after any re-association of appends. -/
theorem read_exact (data pre mid post : List Nat) (pos n : Nat)
    (hdata : data = pre ++ (mid ++ post)) (hpos : pos = pre.length)
    (hn : n = mid.length) (hmid : mid ≠ []) :
    SeekableBytesReader.read ⟨data, pos⟩ n = some (mid, ⟨data, pos + n⟩) := by
  subst hdata hpos hn
  have hlt : pre.length < (pre ++ (mid ++ post)).length := by
    simp only [List.length_append]
    have := List.length_pos.mpr hmid
    omega
  rw [read_of_lt _ _ _ hlt]
  have hdrop : (pre ++ (mid ++ post)).drop pre.length = mid ++ post := List.drop_left pre _
  have htake : (mid ++ post).take mid.length = mid := List.take_left mid post
  have hmin : min (pre.length + mid.length) (pre ++ (mid ++ post)).length
      = pre.length + mid.length := by
    simp only [List.length_append]
    omega
  rw [hdrop, htake, hmin]

/-- A successful `read` of a positive count returns at least one byte. -/
theorem read_ne_nil (data : List Nat) (pos n : Nat) (bs : List Nat)
    (r : SeekableBytesReader) (h : SeekableBytesReader.read ⟨data, pos⟩ n = some (bs, r))
    (hn : n ≠ 0) : bs ≠ [] := by
  rw [SeekableBytesReader.read] at h
  by_cases hend : data.length ≤ pos
  · simp [hend] at h
  · simp only [if_neg hend] at h
    have hlt : pos < data.length := not_le.mp hend
    injection h with h'
    injection h' with h1 _
    intro hnil
    rw [hnil] at h1
    have hlen := congrArg List.length h1
    simp only [List.length_take, List.length_drop, List.length_nil] at hlen
    omega

/-- A successful `read` also pins the cursor inside the buffer. -/
theorem read_some_lt (data : List Nat) (pos n : Nat) (out : List Nat × SeekableBytesReader)
    (h : SeekableBytesReader.read ⟨data, pos⟩ n = some out) : pos < data.length := by
  rw [SeekableBytesReader.read] at h
  by_cases hend : data.length ≤ pos
  · simp [hend] at h
  · exact not_le.mp hend

/-- Shift law for the fold that computes `joinUint8ArrayWithDot`'s total
length: the fold is linear in its accumulator. -/
theorem joinFold_shift (l : List (List Nat)) : ∀ a : Int,
    l.foldl (fun acc part => acc + (part.length : Int) + 1) a
      = a + l.foldl (fun acc part => acc + (part.length : Int) + 1) 0 := by
  induction l with
  | nil => intro a; simp
  | cons p ps ih =>
    intro a
    simp only [List.foldl_cons]
    rw [ih (a + (p.length : Int) + 1), ih ((0 : Int) + (p.length : Int) + 1)]
    omega

/-- The function `joinUint8ArrayWithDot` on a nonempty parts list is `intercalate` with a
dot: the final dot of the write stream is dropped by the length truncation. -/
theorem joinUint8ArrayWithDot_eq_intercalate (parts : List (List Nat)) (h : parts ≠ []) :
    joinUint8ArrayWithDot parts = some (List.intercalate [46] parts) := by
  induction parts with
  | nil => exact absurd rfl h
  | cons p ps ih =>
    cases ps with
    | nil =>
      rw [joinUint8ArrayWithDot]
      simp only [List.foldl_cons, List.foldl_nil, List.map_cons, List.map_nil,
        List.flatten_cons, List.flatten_nil, List.append_nil]
      have hcond : ¬ ((-1 : Int) + p.length + 1 < 0) := by omega
      rw [if_neg hcond]
      have htonat : ((-1 : Int) + p.length + 1).toNat = p.length := by omega
      rw [htonat]
      have : (p ++ [46]).take p.length = p := by
        rw [List.take_append_of_le_length (le_refl p.length), List.take_length]
      rw [this]
      simp [List.intercalate, List.intersperse]
    | cons q qs =>
      have hne : q :: qs ≠ [] := List.cons_ne_nil q qs
      have ihq := ih hne
      simp only [joinUint8ArrayWithDot] at ihq ⊢
      set F : Int := (q :: qs).foldl (fun acc part => acc + part.length + 1) 0 with hF
      have hfold1 : (q :: qs).foldl (fun acc part => acc + (part.length : Int) + 1) (-1)
          = -1 + F := by
        rw [joinFold_shift]
      have hfold2 : (p :: q :: qs).foldl (fun acc part => acc + (part.length : Int) + 1) (-1)
          = (p.length : Int) + F := by
        simp only [List.foldl_cons]
        simp only [List.foldl_cons] at hF
        rw [joinFold_shift qs ((-1 : Int) + (p.length : Int) + 1 + (q.length : Int) + 1)]
        rw [joinFold_shift qs ((0 : Int) + (q.length : Int) + 1)] at hF
        omega
      rw [hfold1] at ihq
      rw [hfold2]
      -- the tail join succeeds, so its total length is nonnegative
      by_cases hneg : (-1 : Int) + F < 0
      · rw [if_pos hneg] at ihq
        exact absurd ihq (by simp)
      · rw [if_neg hneg] at ihq
        have hFpos : 1 ≤ F := by omega
        have hcond : ¬ ((p.length : Int) + F < 0) := by omega
        rw [if_neg hcond]
        have htonat : ((p.length : Int) + F).toNat = p.length + 1 + ((-1 : Int) + F).toNat := by
          omega
        rw [htonat]
        simp only [List.map_cons, List.flatten_cons]
        have happlen : p.length + 1 = (p ++ [46]).length := by simp
        rw [happlen, List.take_append]
        have htail := Option.some.inj ihq
        simp only [List.map_cons, List.flatten_cons] at htail
        rw [htail]
        simp [List.intercalate, List.intersperse, List.append_assoc]

theorem intercalate_singleton (l : List Nat) : List.intercalate [46] [l] = l := by
  simp [List.intercalate, List.intersperse]

theorem land_63_eq_mod (b : Nat) : b &&& 63 = b % 64 := by
  have := Nat.and_pow_two_sub_one_eq_mod b 6
  simpa using this

theorem land_192_ne_zero (b : Nat) (h1 : 64 ≤ b) (h2 : b ≤ 255) : b &&& 192 ≠ 0 := by
  interval_cases b <;> decide

theorem land_192_eq_zero (b : Nat) (h : b < 64) : b &&& 192 = 0 := by
  interval_cases b <;> decide

/-- Seeking to a natural offset within the buffer succeeds. -/
theorem seek_le (data : List Nat) (pos ptr : Nat) (h : ptr ≤ data.length) :
    SeekableBytesReader.seek ⟨data, pos⟩ (ptr : Int) = some ⟨data, ptr⟩ := by
  rw [SeekableBytesReader.seek]
  have hcond : ¬ ((ptr : Int) < 0 ∨ ((⟨data, pos⟩ : SeekableBytesReader).data.length : Int) < ptr) := by
    simp only [not_or, not_lt]
    exact ⟨Int.ofNat_nonneg ptr, by exact_mod_cast h⟩
  rw [if_neg hcond]
  simp

theorem seek_gt (data : List Nat) (pos ptr : Nat) (h : data.length < ptr) :
    SeekableBytesReader.seek ⟨data, pos⟩ (ptr : Int) = none := by
  rw [SeekableBytesReader.seek]
  have hcond : ((ptr : Int) < 0 ∨ ((⟨data, pos⟩ : SeekableBytesReader).data.length : Int) < ptr) := by
    right
    exact_mod_cast h
  rw [if_pos hcond]

/-- Reading a single byte at an in-range position yields exactly that byte. -/
theorem read_one (data : List Nat) (pos b : Nat) (hb : data[pos]? = some b) :
    SeekableBytesReader.read ⟨data, pos⟩ 1 = some ([b], ⟨data, pos + 1⟩) := by
  obtain ⟨hlt, hget⟩ := List.getElem?_eq_some_iff.mp hb
  rw [read_of_lt data pos 1 hlt]
  rw [List.drop_eq_getElem_cons hlt, hget]
  have hmin : min (pos + 1) data.length = pos + 1 := by omega
  rw [hmin]
  rfl

/-- The compression-pointer branch of the fused loop is exactly
`decodeCompressedName` (pushed as a single part, ending the label loop):
this re-establishes the source's mutual recursion. -/
theorem decodeNameCore_pointer (data : List Nat) (fuel pos b : Nat)
    (hb : data[pos]? = some b) (hnz : b ≠ 0) (hptr : b &&& 192 ≠ 0) :
    decodeNameCore data (fuel + 1) pos =
      match decodeCompressedName data fuel b (pos + 1) with
      | .ok (name, endPos) => .ok ([name], endPos)
      | .err => .err
      | .outOfFuel => .outOfFuel := by
  rw [decodeNameCore, read_one data pos b hb]
  simp only [List.headD_cons, if_neg hnz, if_pos hptr, decodeCompressedName, decodeName]
  cases hr2 : SeekableBytesReader.read ⟨data, pos + 1⟩ 1 with
  | none => rfl
  | some out =>
    obtain ⟨ptrBytes, r2⟩ := out
    simp only
    cases hseek : SeekableBytesReader.seek ⟨data, r2.position⟩
        (((unpackUnsignedShortsBigEndian [b &&& 63, ptrBytes.headD 0]).headD 0 : Nat) : Int) with
    | none => rfl
    | some r3 =>
      simp only
      cases hcore : decodeNameCore data fuel r3.position with
      | ok v =>
        obtain ⟨innerParts, e⟩ := v
        simp only
        cases hjoin : joinUint8ArrayWithDot innerParts with
        | none => rfl
        | some name => rfl
      | err => rfl
      | outOfFuel => rfl

/-- The literal-label branch of the fused loop: with the label fully inside
the buffer, exactly `b` bytes are consumed and the loop continues after
them. -/
theorem decodeNameCore_literal (data : List Nat) (fuel pos b : Nat)
    (hb : data[pos]? = some b) (hnz : b ≠ 0) (hlit : b &&& 192 = 0)
    (havail : pos + 1 + b ≤ data.length) :
    decodeNameCore data (fuel + 1) pos =
      match decodeNameCore data fuel (pos + 1 + b) with
      | .ok (parts, endPos) => .ok ((data.drop (pos + 1)).take b :: parts, endPos)
      | .err => .err
      | .outOfFuel => .outOfFuel := by
  rw [decodeNameCore, read_one data pos b hb]
  simp only [List.headD_cons, if_neg hnz, hlit, ne_eq, not_true_eq_false, if_false]
  have hlt1 : pos + 1 < data.length := by
    have hbpos : 1 ≤ b := Nat.one_le_iff_ne_zero.mpr hnz
    omega
  rw [read_of_lt data (pos + 1) b hlt1]
  have hmin : min (pos + 1 + b) data.length = pos + 1 + b := by omega
  rw [hmin]

/-- A zero length byte ends the name at once. -/
theorem decodeNameCore_zero (data : List Nat) (fuel pos : Nat)
    (hb : data[pos]? = some 0) :
    decodeNameCore data (fuel + 1) pos = .ok ([], pos + 1) := by
  rw [decodeNameCore, read_one data pos 0 hb]
  rfl

/-- A successful `decodeNameCore` needs its start position inside the buffer. -/
theorem decodeNameCore_ok_lt (data : List Nat) (fuel pos : Nat)
    (v : List (List Nat) × Nat) (h : decodeNameCore data fuel pos = .ok v) :
    pos < data.length := by
  cases fuel with
  | zero => rw [decodeNameCore] at h; exact absurd h (by simp)
  | succ fuel =>
    rw [decodeNameCore] at h
    cases hr : SeekableBytesReader.read ⟨data, pos⟩ 1 with
    | none => rw [hr] at h; exact absurd h (by simp)
    | some out => exact read_some_lt data pos 1 out hr

theorem decodeName_ok_lt (data : List Nat) (fuel pos : Nat)
    (v : List Nat × Nat) (h : decodeName data fuel pos = .ok v) : pos < data.length := by
  rw [decodeName] at h
  cases hcore : decodeNameCore data fuel pos with
  | ok w => exact decodeNameCore_ok_lt data fuel pos w hcore
  | err => rw [hcore] at h; exact absurd h (by simp)
  | outOfFuel => rw [hcore] at h; exact absurd h (by simp)

/-! ## C3: reader error behaviour -/

/-- C3 counterexample: with buffer `[1, 2]`, position 0 and request 5 we have
`0 + 5 > 2`, yet `read` does not fail — it silently returns the two available
bytes, refuting "for every position p and request n with p + n greater than
the buffer length, read(n) fails rather than returning a short result". -/
theorem c3_counterexample :
    SeekableBytesReader.read ⟨[1, 2], 0⟩ 5 = some ([1, 2], ⟨[1, 2], 2⟩) ∧
      [1, 2].length < 0 + 5 := by
  constructor
  · rfl
  · decide

/-- C3 amended: `read` fails exactly when the starting position is at or past
the end of the buffer; an in-range read returns `min n remaining` bytes,
silently truncating when fewer than `n` remain; `seek` fails exactly for
targets outside `[0, length]`. -/
theorem c3_amended (data : List Nat) (posBad posOk n : Nat) (offBad offOk : Int)
    (h1 : data.length ≤ posBad) (h2 : posOk < data.length)
    (h3 : offBad < 0 ∨ (data.length : Int) < offBad)
    (h4 : 0 ≤ offOk) (h5 : offOk ≤ (data.length : Int)) :
    SeekableBytesReader.read ⟨data, posBad⟩ n = none ∧
    SeekableBytesReader.read ⟨data, posOk⟩ n =
      some ((data.drop posOk).take n, ⟨data, min (posOk + n) data.length⟩) ∧
    SeekableBytesReader.seek ⟨data, posOk⟩ offBad = none ∧
    SeekableBytesReader.seek ⟨data, posBad⟩ offOk = some ⟨data, offOk.toNat⟩ := by
  refine ⟨?_, read_of_lt data posOk n h2, ?_, ?_⟩
  · rw [SeekableBytesReader.read, if_pos h1]
  · rw [SeekableBytesReader.seek, if_pos h3]
  · rw [SeekableBytesReader.seek, if_neg ?_]
    simp only [not_or, not_lt]
    exact ⟨h4, h5⟩

/-- Witness for C3 amended at buffer `[1, 2]`. -/
theorem c3_w :
    SeekableBytesReader.read ⟨[1, 2], 2⟩ 5 = none ∧
    SeekableBytesReader.read ⟨[1, 2], 0⟩ 5 =
      some (([1, 2].drop 0).take 5, ⟨[1, 2], min (0 + 5) [1, 2].length⟩) ∧
    SeekableBytesReader.seek ⟨[1, 2], 0⟩ 3 = none ∧
    SeekableBytesReader.seek ⟨[1, 2], 2⟩ 2 = some ⟨[1, 2], Int.toNat 2⟩ :=
  c3_amended [1, 2] 2 0 5 3 2 (by decide) (by decide) (by norm_num) (by norm_num) (by norm_num)

/-! ## C5: shape of a built query -/

/-- C5: `buildQuery` emits the big-endian 12-byte header — the 16-bit id,
flags 0, question count 1 and three zero counts — then the encoded name, the
16-bit record type and class IN (1). -/
theorem c5 (id recordType : Nat) (domainName : List Nat)
    (hid : id < 65536) (ht : recordType < 65536) :
    buildQuery id domainName recordType =
      [id / 256, id % 256, 0, 0, 0, 1, 0, 0, 0, 0, 0, 0] ++ encodeDnsName domainName ++
        [recordType / 256, recordType % 256, 0, 1] ∧
    (buildQuery id domainName recordType).drop 4 =
      [0, 1, 0, 0, 0, 0, 0, 0] ++ encodeDnsName domainName ++
        [recordType / 256, recordType % 256, 0, 1] := by
  have hmain : buildQuery id domainName recordType =
      [id / 256, id % 256, 0, 0, 0, 1, 0, 0, 0, 0, 0, 0] ++ encodeDnsName domainName ++
        [recordType / 256, recordType % 256, 0, 1] := by
    rw [buildQuery, headerToBytes, questionToBytes, CLASS_IN]
    simp only [packUnsignedShortsBigEndian, List.map_cons, List.map_nil, List.flatten_cons,
      List.flatten_nil, Nat.mod_self, Nat.mod_eq_of_lt hid, Nat.mod_eq_of_lt ht]
    norm_num
  refine ⟨hmain, ?_⟩
  rw [hmain]
  rfl

/-- Witness for C5: the query for "example.com" type A with id 0x1234; with
the 2-byte id and 2-byte zero flags stripped, the bytes are hex
`0001000000000000076578616d706c6503636f6d0000010001`. -/
theorem c5_w :
    buildQuery 4660 [101, 120, 97, 109, 112, 108, 101, 46, 99, 111, 109] 1 =
      [4660 / 256, 4660 % 256, 0, 0, 0, 1, 0, 0, 0, 0, 0, 0] ++
        encodeDnsName [101, 120, 97, 109, 112, 108, 101, 46, 99, 111, 109] ++
        [1 / 256, 1 % 256, 0, 1] ∧
    (buildQuery 4660 [101, 120, 97, 109, 112, 108, 101, 46, 99, 111, 109] 1).drop 4 =
      [0, 1, 0, 0, 0, 0, 0, 0,
        7, 101, 120, 97, 109, 112, 108, 101, 3, 99, 111, 109, 0, 0, 1, 0, 1] := by
  have h := c5 4660 1 [101, 120, 97, 109, 112, 108, 101, 46, 99, 111, 109]
    (by decide) (by decide)
  exact ⟨h.1, by decide⟩

/-! ## C2: compression pointers -/

/-- C2: on a length byte with both top bits set (a compression pointer), the
low 6 bits combined with the following byte form the 14-bit absolute offset;
whatever name decodes at that offset is returned unchanged as the whole
remainder of this name — the parts list gains that single entry and no
further labels are read — and the cursor ends exactly two bytes after the
pointer started.  In particular a name occurrence encoded purely as a pointer
decodes to the identical name as the occurrence at the target offset. -/
theorem c2 (data : List Nat) (fuel pos b b2 endPos : Nat) (name : List Nat)
    (hb : data[pos]? = some b) (hb192 : 192 ≤ b) (hb255 : b ≤ 255)
    (hb2 : data[pos + 1]? = some b2)
    (htarget : decodeName data fuel ((b &&& 63) * 256 + b2) = .ok (name, endPos)) :
    decodeCompressedName data fuel b (pos + 1) = .ok (name, pos + 2) ∧
    decodeNameCore data (fuel + 1) pos = .ok ([name], pos + 2) ∧
    decodeName data (fuel + 1) pos = .ok (name, pos + 2) := by
  have hnz : b ≠ 0 := by omega
  have hptr : b &&& 192 ≠ 0 := land_192_ne_zero b (by omega) hb255
  have hptrlt : (b &&& 63) * 256 + b2 < data.length :=
    decodeName_ok_lt data fuel _ _ htarget
  have hcomp : decodeCompressedName data fuel b (pos + 1) = .ok (name, pos + 2) := by
    rw [decodeCompressedName, read_one data (pos + 1) b2 hb2]
    have hunpack : (unpackUnsignedShortsBigEndian [b &&& 63, List.headD [b2] 0]).headD 0
        = (b &&& 63) * 256 + b2 := rfl
    simp only [hunpack]
    rw [seek_le data (pos + 1 + 1) ((b &&& 63) * 256 + b2) (le_of_lt hptrlt)]
    simp only [htarget]
  have hcore : decodeNameCore data (fuel + 1) pos = .ok ([name], pos + 2) := by
    rw [decodeNameCore_pointer data fuel pos b hb hnz hptr, hcomp]
  refine ⟨hcomp, hcore, ?_⟩
  rw [decodeName, hcore]
  simp only [joinUint8ArrayWithDot_eq_intercalate [name] (List.cons_ne_nil name []),
    intercalate_singleton]

/-- Witness for C2: the name "a.b" is stored at offset 0; a pure pointer
occurrence `C0 00` at offset 5 decodes to the identical name, ending right
after the two pointer bytes. -/
theorem c2_w :
    decodeCompressedName [1, 97, 1, 98, 0, 192, 0] 3 192 6 = .ok ([97, 46, 98], 7) ∧
    decodeNameCore [1, 97, 1, 98, 0, 192, 0] 4 5 = .ok ([[97, 46, 98]], 7) ∧
    decodeName [1, 97, 1, 98, 0, 192, 0] 4 5 = .ok ([97, 46, 98], 7) :=
  c2 [1, 97, 1, 98, 0, 192, 0] 3 5 192 0 5 [97, 46, 98]
    (by decide) (by decide) (by decide) (by decide) (by decide)

/-! ## C6: pointer cycles -/

/-- The name decoder exhausts every recursion bound from this start position:
the shallow-embedding statement that the unbounded JS recursion never
returns. -/
def decodeNameDiverges (data : List Nat) (pos : Nat) : Prop :=
  ∀ fuel, decodeName data fuel pos = .outOfFuel

/-- A compression pointer whose target is its own position makes the decoder
recurse for ever. -/
theorem selfPointer_diverges (data : List Nat) (pos b b2 : Nat)
    (hb : data[pos]? = some b) (h64 : 64 ≤ b) (h255 : b ≤ 255)
    (hb2 : data[pos + 1]? = some b2) (hcyc : (b &&& 63) * 256 + b2 = pos) :
    decodeNameDiverges data pos := by
  have hnz : b ≠ 0 := by omega
  have hptr : b &&& 192 ≠ 0 := land_192_ne_zero b h64 h255
  have hposlt : pos < data.length := (List.getElem?_eq_some_iff.mp hb).1
  have hcore : ∀ fuel, decodeNameCore data fuel pos = .outOfFuel := by
    intro fuel
    induction fuel with
    | zero => rfl
    | succ fuel ih =>
      rw [decodeNameCore_pointer data fuel pos b hb hnz hptr]
      rw [decodeCompressedName, read_one data (pos + 1) b2 hb2]
      have hunpack : (unpackUnsignedShortsBigEndian [b &&& 63, List.headD [b2] 0]).headD 0
          = (b &&& 63) * 256 + b2 := rfl
      simp only [hunpack, hcyc]
      rw [seek_le data (pos + 1 + 1) pos (le_of_lt hposlt)]
      simp only [decodeName, ih]
  intro fuel
  rw [decodeName, hcore fuel]

/-- C6 counterexample: the two-byte buffer `C0 00` is a name whose pointer
targets offset 0, i.e. itself; `decodeName` exhausts every recursion bound
on it instead of failing with a bounded error, refuting "name decoding
terminates on every input buffer". -/
theorem c6_counterexample : decodeNameDiverges [192, 0] 0 :=
  selfPointer_diverges [192, 0] 0 192 0 (by decide) (by decide) (by decide)
    (by decide) (by decide)

/-- C6 amended: name decoding does not terminate on every input: whenever a
length byte is a pointer (top bits set) whose 14-bit target equals the
position of that very byte, the decoder recurses unboundedly — for every
recursion bound it runs out of fuel, mirroring the unbounded JS recursion
(the original eventually dies of stack exhaustion rather than a deterministic
bounded error). -/
theorem c6_amended (data : List Nat) (pos b b2 : Nat)
    (hb : data[pos]? = some b) (h64 : 64 ≤ b) (h255 : b ≤ 255)
    (hb2 : data[pos + 1]? = some b2) (hcyc : (b &&& 63) * 256 + b2 = pos) :
    decodeNameDiverges data pos :=
  selfPointer_diverges data pos b b2 hb h64 h255 hb2 hcyc

/-- Witness for C6 amended: a self-pointer sitting at offset 2 of a larger
buffer. -/
theorem c6_w :
    ([1, 97, 192, 2][2]? = some 192) ∧ ((192 &&& 63) * 256 + 2 = 2) ∧
      decodeNameDiverges [1, 97, 192, 2] 2 :=
  ⟨by decide, by decide,
    c6_amended [1, 97, 192, 2] 2 192 2 (by decide) (by decide) (by decide)
      (by decide) (by decide)⟩

/-! ## C7: which length bytes count as pointers -/

/-- C7 counterexample: the buffer below starts with length byte `0x40 = 64`,
which is nonzero and below `0xC0`, so per the claim it would be taken as a
literal label length and 64 following bytes would be read.  Instead the code
tests `length & 0xC0 != 0`, treats it as a pointer to offset 4 and decodes
the one-byte label "a" stored there, with the cursor ending at 2. -/
theorem c7_counterexample :
    ([64, 4, 9, 9, 1, 97, 0][0]? = some 64) ∧ (64 ≠ 0) ∧ (64 < 192) ∧
      decodeName [64, 4, 9, 9, 1, 97, 0] 10 0 = .ok ([97], 2) := by
  refine ⟨by decide, by decide, by decide, by decide⟩

/-- C7 amended: a nonzero length byte is treated as a compression pointer iff
`length & 0xC0` is nonzero, i.e. iff its value is at least `0x40` (either of
the top two bits set); only bytes 1–63 are treated as literal label lengths,
and for those exactly that many following bytes are read as the label before
continuing with the next length byte. -/
theorem c7_amended (data : List Nat) (fuel pos b : Nat)
    (hb : data[pos]? = some b) (hb255 : b ≤ 255) (hnz : b ≠ 0) :
    (b < 64 → pos + 1 + b ≤ data.length →
      decodeNameCore data (fuel + 1) pos =
        match decodeNameCore data fuel (pos + 1 + b) with
        | .ok (parts, endPos) => .ok ((data.drop (pos + 1)).take b :: parts, endPos)
        | .err => .err
        | .outOfFuel => .outOfFuel) ∧
    (64 ≤ b →
      decodeNameCore data (fuel + 1) pos =
        match decodeCompressedName data fuel b (pos + 1) with
        | .ok (name, endPos) => .ok ([name], endPos)
        | .err => .err
        | .outOfFuel => .outOfFuel) :=
  ⟨fun hlt havail =>
      decodeNameCore_literal data fuel pos b hb hnz (land_192_eq_zero b hlt) havail,
    fun h64 =>
      decodeNameCore_pointer data fuel pos b hb hnz (land_192_ne_zero b h64 hb255)⟩

/-- Witness for C7 amended at the byte `0x40`, which falls in the pointer
branch. -/
theorem c7_w :
    (64 < 64 → 0 + 1 + 64 ≤ [64, 4, 9, 9, 1, 97, 0].length →
      decodeNameCore [64, 4, 9, 9, 1, 97, 0] (9 + 1) 0 =
        match decodeNameCore [64, 4, 9, 9, 1, 97, 0] 9 (0 + 1 + 64) with
        | .ok (parts, endPos) =>
          .ok (([64, 4, 9, 9, 1, 97, 0].drop (0 + 1)).take 64 :: parts, endPos)
        | .err => .err
        | .outOfFuel => .outOfFuel) ∧
    (64 ≤ 64 →
      decodeNameCore [64, 4, 9, 9, 1, 97, 0] (9 + 1) 0 =
        match decodeCompressedName [64, 4, 9, 9, 1, 97, 0] 9 64 (0 + 1) with
        | .ok (name, endPos) => .ok ([name], endPos)
        | .err => .err
        | .outOfFuel => .outOfFuel) :=
  c7_amended [64, 4, 9, 9, 1, 97, 0] 9 0 64 (by decide) (by decide) (by decide)

/-! ## C8: joining the labels -/

/-- C8 counterexample: a name consisting of only the zero terminator
collects no labels, and `joinUint8ArrayWithDot` on an empty parts list
computes total length `-1`, so `new Uint8Array(-1)` throws: the empty name
makes `decodeName` fail instead of decoding to the empty byte string. -/
theorem c8_counterexample :
    decodeName [0] 5 0 = .err ∧ joinUint8ArrayWithDot [] = none := by
  refine ⟨by decide, rfl⟩

/-- C8 amended: when at least one label was collected, `decodeName` joins
the labels with single `'.'` separators and no trailing separator
(`List.intercalate [46]`); when the label list is empty (a name that is just
the zero terminator), the join raises an error and `decodeName` fails rather
than returning the empty byte string. -/
theorem c8_amended (data : List Nat) (fuel pos endPos : Nat) (parts : List (List Nat))
    (h : decodeNameCore data fuel pos = .ok (parts, endPos)) :
    (parts = [] → decodeName data fuel pos = .err) ∧
    (parts ≠ [] → decodeName data fuel pos = .ok (List.intercalate [46] parts, endPos)) := by
  constructor
  · intro hnil
    rw [decodeName, h, hnil]
    rfl
  · intro hne
    rw [decodeName, h]
    simp only [joinUint8ArrayWithDot_eq_intercalate parts hne]

/-- Witness for C8 amended: the labels of "a.b" joined with a single dot and
no trailing separator, and the empty-label case exercised on the buffer
`[0]`. -/
theorem c8_w :
    (decodeName [1, 97, 1, 98, 0] 3 0 = .ok (List.intercalate [46] [[97], [98]], 5)) ∧
      (decodeName [0] 1 0 = .err) :=
  ⟨(c8_amended [1, 97, 1, 98, 0] 3 0 5 [[97], [98]] (by decide)).2 (by decide),
    (c8_amended [0] 1 0 1 [] (by decide)).1 rfl⟩

/-! ## C9: record payload interpretation -/

theorem getD_drop_take (data : List Nat) (p n i : Nat) (hi : i < n) :
    ((data.drop p).take n).getD i 0 = data.getD (p + i) 0 := by
  rw [List.getD_eq_getElem?_getD, List.getD_eq_getElem?_getD,
    List.getElem?_take_of_lt hi, List.getElem?_drop]

/-- C9: after the record name and the 10 fixed bytes (big-endian type, class,
32-bit ttl, data length), the payload is read by type: type A reads exactly 4
bytes — whatever the declared data length says — and stores their
dotted-decimal rendering; type NS decodes a (possibly compressed) name
delimited by its own terminator, also ignoring the declared length; any other
type reads exactly the declared number of raw bytes. -/
theorem c9 (data : List Nat) (fuel pos pos1 : Nat) (name : List Nat)
    (hname : decodeName data fuel pos = .ok (name, pos1))
    (hlen : pos1 + 10 ≤ data.length) :
    (data.getD pos1 0 * 256 + data.getD (pos1 + 1) 0 = TYPE_A →
      pos1 + 14 ≤ data.length →
      parseRecord data fuel pos = .ok
        (⟨name, TYPE_A,
          data.getD (pos1 + 2) 0 * 256 + data.getD (pos1 + 3) 0,
          ((data.getD (pos1 + 4) 0 * 256 + data.getD (pos1 + 5) 0) * 256
            + data.getD (pos1 + 6) 0) * 256 + data.getD (pos1 + 7) 0,
          .str (ipToString ((data.drop (pos1 + 10)).take 4))⟩, pos1 + 14)) ∧
    (data.getD pos1 0 * 256 + data.getD (pos1 + 1) 0 = TYPE_NS →
      ∀ (nsName : List Nat) (pos2 : Nat),
        decodeName data fuel (pos1 + 10) = .ok (nsName, pos2) →
        parseRecord data fuel pos = .ok
          (⟨name, TYPE_NS,
            data.getD (pos1 + 2) 0 * 256 + data.getD (pos1 + 3) 0,
            ((data.getD (pos1 + 4) 0 * 256 + data.getD (pos1 + 5) 0) * 256
              + data.getD (pos1 + 6) 0) * 256 + data.getD (pos1 + 7) 0,
            .bytes nsName⟩, pos2)) ∧
    (data.getD pos1 0 * 256 + data.getD (pos1 + 1) 0 ≠ TYPE_A →
      data.getD pos1 0 * 256 + data.getD (pos1 + 1) 0 ≠ TYPE_NS →
      pos1 + 10 < data.length →
      pos1 + 10 + (data.getD (pos1 + 8) 0 * 256 + data.getD (pos1 + 9) 0) ≤ data.length →
      parseRecord data fuel pos = .ok
        (⟨name, data.getD pos1 0 * 256 + data.getD (pos1 + 1) 0,
          data.getD (pos1 + 2) 0 * 256 + data.getD (pos1 + 3) 0,
          ((data.getD (pos1 + 4) 0 * 256 + data.getD (pos1 + 5) 0) * 256
            + data.getD (pos1 + 6) 0) * 256 + data.getD (pos1 + 7) 0,
          .bytes ((data.drop (pos1 + 10)).take
            (data.getD (pos1 + 8) 0 * 256 + data.getD (pos1 + 9) 0))⟩,
          pos1 + 10 + (data.getD (pos1 + 8) 0 * 256 + data.getD (pos1 + 9) 0))) := by
  have hpos1 : pos1 < data.length := by omega
  have hread10 : SeekableBytesReader.read ⟨data, pos1⟩ 10 =
      some ((data.drop pos1).take 10, ⟨data, pos1 + 10⟩) := by
    rw [read_of_lt data pos1 10 hpos1]
    have : min (pos1 + 10) data.length = pos1 + 10 := by omega
    rw [this]
  have hlen10 : ((data.drop pos1).take 10).length = 10 := by
    rw [List.length_take, List.length_drop]
    omega
  have hbyte : ∀ i, i < 10 → ((data.drop pos1).take 10).getD i 0 = data.getD (pos1 + i) 0 :=
    fun i hi => getD_drop_take data pos1 10 i hi
  have hcommon : parseRecord data fuel pos =
      (let type_ := data.getD pos1 0 * 256 + data.getD (pos1 + 1) 0
       let class_ := data.getD (pos1 + 2) 0 * 256 + data.getD (pos1 + 3) 0
       let ttl := ((data.getD (pos1 + 4) 0 * 256 + data.getD (pos1 + 5) 0) * 256
          + data.getD (pos1 + 6) 0) * 256 + data.getD (pos1 + 7) 0
       let dataLen := data.getD (pos1 + 8) 0 * 256 + data.getD (pos1 + 9) 0
       if type_ = TYPE_NS then
          match decodeName data fuel (pos1 + 10) with
          | .ok (nsName, pos3) => .ok (⟨name, type_, class_, ttl, .bytes nsName⟩, pos3)
          | .err => .err
          | .outOfFuel => .outOfFuel
        else if type_ = TYPE_A then
          match SeekableBytesReader.read ⟨data, pos1 + 10⟩ 4 with
          | none => .err
          | some (ipBytes, r3) =>
            .ok (⟨name, type_, class_, ttl, .str (ipToString ipBytes)⟩, r3.position)
        else
          match SeekableBytesReader.read ⟨data, pos1 + 10⟩ dataLen with
          | none => .err
          | some (raw, r3) => .ok (⟨name, type_, class_, ttl, .bytes raw⟩, r3.position)) := by
    rw [parseRecord, hname]
    simp only [hread10, hlen10, hbyte 0 (by omega), hbyte 1 (by omega), hbyte 2 (by omega),
      hbyte 3 (by omega), hbyte 4 (by omega), hbyte 5 (by omega), hbyte 6 (by omega),
      hbyte 7 (by omega), hbyte 8 (by omega), hbyte 9 (by omega), Nat.add_zero,
      Nat.lt_irrefl, if_false]
  refine ⟨?_, ?_, ?_⟩
  · intro hA h14
    rw [hcommon]
    simp only
    rw [if_neg (by rw [hA]; decide), if_pos hA, hA]
    have hr4 : SeekableBytesReader.read ⟨data, pos1 + 10⟩ 4 =
        some ((data.drop (pos1 + 10)).take 4, ⟨data, pos1 + 14⟩) := by
      rw [read_of_lt data (pos1 + 10) 4 (by omega)]
      have : min (pos1 + 10 + 4) data.length = pos1 + 14 := by omega
      rw [this]
    rw [hr4]
  · intro hNS nsName pos2 hname2
    rw [hcommon]
    simp only
    rw [if_pos hNS, hname2, hNS]
  · intro hnA hnNS h10 hdl
    rw [hcommon]
    simp only
    rw [if_neg hnNS, if_neg hnA]
    have hrd : SeekableBytesReader.read ⟨data, pos1 + 10⟩
          (data.getD (pos1 + 8) 0 * 256 + data.getD (pos1 + 9) 0) =
        some ((data.drop (pos1 + 10)).take (data.getD (pos1 + 8) 0 * 256 + data.getD (pos1 + 9) 0),
          ⟨data, pos1 + 10 + (data.getD (pos1 + 8) 0 * 256 + data.getD (pos1 + 9) 0)⟩) := by
      rw [read_of_lt data (pos1 + 10) _ h10]
      have : min (pos1 + 10 + (data.getD (pos1 + 8) 0 * 256 + data.getD (pos1 + 9) 0)) data.length
          = pos1 + 10 + (data.getD (pos1 + 8) 0 * 256 + data.getD (pos1 + 9) 0) := by omega
      rw [this]
    rw [hrd]

/-- Witness for C9: an A record named "a" with declared data length 7 (not
4!) and payload starting `[93, 184, 216, 34]`: exactly 4 bytes are consumed
(the cursor ends at 17, not 20) and they render as "93.184.216.34". -/
theorem c9_w :
    parseRecord [1, 97, 0, 0, 1, 0, 1, 0, 0, 0, 5, 0, 7, 93, 184, 216, 34, 9, 9, 9] 5 0 =
      .ok (⟨[97], TYPE_A, 1, 5,
        .str (ipToString (([1, 97, 0, 0, 1, 0, 1, 0, 0, 0, 5, 0, 7,
          93, 184, 216, 34, 9, 9, 9].drop 13).take 4))⟩, 17) ∧
    ipToString [93, 184, 216, 34] =
      [57, 51, 46, 49, 56, 52, 46, 50, 49, 54, 46, 51, 52] := by
  constructor
  · have h := (c9 [1, 97, 0, 0, 1, 0, 1, 0, 0, 0, 5, 0, 7, 93, 184, 216, 34, 9, 9, 9]
      5 0 3 [97] (by decide) (by decide)).1 (by decide) (by decide)
    exact h
  · decide

/-! ## Record invariants of decoded packets -/

theorem intercalate_cons_ne_nil (p : List Nat) (rest : List (List Nat)) (hp : p ≠ []) :
    List.intercalate [46] (p :: rest) ≠ [] := by
  cases rest with
  | nil => rw [intercalate_singleton]; exact hp
  | cons q qs =>
    have hunfold : List.intercalate [46] (p :: q :: qs)
        = p ++ [46] ++ List.intercalate [46] (q :: qs) := by
      simp [List.intercalate, List.intersperse]
    rw [hunfold]
    simp

theorem natToDecBytes_ne_nil (n : Nat) : natToDecBytes n ≠ [] := by
  rw [natToDecBytes, natToDecBytesAux]
  by_cases h : n < 10
  · simp [h]
  · simp [h]

theorem ipToString_ne_nil (ip : List Nat) (h : ip ≠ []) : ipToString ip ≠ [] := by
  obtain ⟨x, rest, rfl⟩ := List.exists_cons_of_ne_nil h
  rw [ipToString, List.map_cons]
  exact intercalate_cons_ne_nil _ _ (natToDecBytes_ne_nil x)

/-- Eliminate a successful `decodeName`: the loop succeeded and the join of
its parts is the name. -/
theorem decodeName_ok_elim (data : List Nat) (fuel pos : Nat) (nm : List Nat) (e : Nat)
    (h : decodeName data fuel pos = .ok (nm, e)) :
    ∃ ps, decodeNameCore data fuel pos = .ok (ps, e) ∧ joinUint8ArrayWithDot ps = some nm := by
  rw [decodeName] at h
  cases hc : decodeNameCore data fuel pos with
  | ok v =>
    obtain ⟨ps, pe⟩ := v
    rw [hc] at h
    replace h : (match joinUint8ArrayWithDot ps with
      | none => DecodeResult.err
      | some name => DecodeResult.ok (name, pe)) = DecodeResult.ok (nm, e) := h
    cases hj : joinUint8ArrayWithDot ps with
    | none => rw [hj] at h; cases h
    | some nm2 =>
      rw [hj] at h
      replace h : DecodeResult.ok (nm2, pe) = DecodeResult.ok (nm, e) := h
      simp only [DecodeResult.ok.injEq, Prod.mk.injEq] at h
      obtain ⟨h1, h2⟩ := h
      refine ⟨ps, ?_, ?_⟩
      · rw [h2]
      · rw [hj, h1]
  | err => rw [hc] at h; cases h
  | outOfFuel => rw [hc] at h; cases h

/-- Eliminate a successful `decodeCompressedName`: the name it returns was
decoded by the recursive `decodeName` call at the pointer target. -/
theorem decodeCompressedName_ok_elim (data : List Nat) (fuel length pos : Nat)
    (nm : List Nat) (e : Nat)
    (h : decodeCompressedName data fuel length pos = .ok (nm, e)) :
    ∃ (tgt e2 : Nat), decodeName data fuel tgt = .ok (nm, e2) := by
  rw [decodeCompressedName] at h
  cases hr2 : SeekableBytesReader.read ⟨data, pos⟩ 1 with
  | none => rw [hr2] at h; cases h
  | some out =>
    obtain ⟨ptrBytes, r2⟩ := out
    rw [hr2] at h
    replace h : (match SeekableBytesReader.seek ⟨data, r2.position⟩
        (((unpackUnsignedShortsBigEndian [length &&& 63, ptrBytes.headD 0]).headD 0 : Nat) : Int) with
      | none => DecodeResult.err
      | some r3 =>
        match decodeName data fuel r3.position with
        | .ok (name, _) => DecodeResult.ok (name, r2.position)
        | .err => DecodeResult.err
        | .outOfFuel => DecodeResult.outOfFuel) = DecodeResult.ok (nm, e) := h
    cases hseek : SeekableBytesReader.seek ⟨data, r2.position⟩
        (((unpackUnsignedShortsBigEndian [length &&& 63, ptrBytes.headD 0]).headD 0 : Nat) : Int) with
    | none => rw [hseek] at h; cases h
    | some r3 =>
      rw [hseek] at h
      replace h : (match decodeName data fuel r3.position with
        | .ok (name, _) => DecodeResult.ok (name, r2.position)
        | .err => DecodeResult.err
        | .outOfFuel => DecodeResult.outOfFuel) = DecodeResult.ok (nm, e) := h
      cases hn : decodeName data fuel r3.position with
      | ok w =>
        obtain ⟨nm2, e2⟩ := w
        rw [hn] at h
        replace h : DecodeResult.ok (nm2, r2.position) = DecodeResult.ok (nm, e) := h
        simp only [DecodeResult.ok.injEq, Prod.mk.injEq] at h
        exact ⟨r3.position, e2, by rw [hn, h.1]⟩
      | err => rw [hn] at h; cases h
      | outOfFuel => rw [hn] at h; cases h

/-- General unfolding of the literal-label branch (no bounds assumption:
a truncated read is possible here). -/
theorem decodeNameCore_literal_general (data : List Nat) (fuel pos b : Nat)
    (hb : data[pos]? = some b) (hnz : b ≠ 0) (hlit : b &&& 192 = 0) :
    decodeNameCore data (fuel + 1) pos =
      match SeekableBytesReader.read ⟨data, pos + 1⟩ b with
      | none => .err
      | some (part, r2) =>
        match decodeNameCore data fuel r2.position with
        | .ok (parts, endPos) => .ok (part :: parts, endPos)
        | .err => .err
        | .outOfFuel => .outOfFuel := by
  rw [decodeNameCore, read_one data pos b hb]
  simp only [List.headD_cons, if_neg hnz, hlit, ne_eq, not_true_eq_false, if_false]

/-- Every label collected by a successful run of the name loop is nonempty:
literal labels have a nonzero length byte and a successful read yields at
least one byte, and a pointer part is itself a successfully joined name. -/
theorem decodeNameCore_parts_ne_nil (data : List Nat) : ∀ (fuel : Nat),
    ∀ (pos : Nat) (parts : List (List Nat)) (endPos : Nat),
      decodeNameCore data fuel pos = .ok (parts, endPos) → ∀ part ∈ parts, part ≠ [] := by
  intro fuel
  induction fuel with
  | zero =>
    intro pos parts endPos h
    rw [decodeNameCore] at h
    cases h
  | succ fuel ih =>
    have hnameok : ∀ (pos2 : Nat) (nm2 : List Nat) (e2 : Nat),
        decodeName data fuel pos2 = .ok (nm2, e2) → nm2 ≠ [] := by
      intro pos2 nm2 e2 hdn
      obtain ⟨ps, hcore2, hjoin⟩ := decodeName_ok_elim data fuel pos2 nm2 e2 hdn
      cases hps : ps with
      | nil =>
        rw [hps] at hjoin
        rw [show joinUint8ArrayWithDot [] = none from rfl] at hjoin
        cases hjoin
      | cons p rest =>
        rw [hps] at hjoin
        rw [joinUint8ArrayWithDot_eq_intercalate _ (List.cons_ne_nil p rest)] at hjoin
        injection hjoin with hjoin
        rw [← hjoin]
        refine intercalate_cons_ne_nil p rest ?_
        exact ih pos2 (p :: rest) e2 (by rw [← hps]; exact hcore2) p
          (List.mem_cons_self p rest)
    intro pos parts endPos h
    cases hb : data[pos]? with
    | none =>
      have hout : data.length ≤ pos := by
        by_contra hlt
        rw [List.getElem?_eq_none_iff] at hb
        omega
      rw [decodeNameCore] at h
      rw [show SeekableBytesReader.read ⟨data, pos⟩ 1 = none from by
        rw [SeekableBytesReader.read, if_pos hout]] at h
      cases h
    | some b =>
      by_cases hz : b = 0
      · subst hz
        rw [decodeNameCore_zero data fuel pos hb] at h
        simp only [DecodeResult.ok.injEq, Prod.mk.injEq] at h
        rw [← h.1]
        intro part hmem
        exact absurd hmem (List.not_mem_nil part)
      · by_cases hptr : b &&& 192 ≠ 0
        · rw [decodeNameCore_pointer data fuel pos b hb hz hptr] at h
          cases hcomp : decodeCompressedName data fuel b (pos + 1) with
          | ok v =>
            obtain ⟨nm, e⟩ := v
            rw [hcomp] at h
            replace h : DecodeResult.ok ([nm], e) = DecodeResult.ok (parts, endPos) := h
            simp only [DecodeResult.ok.injEq, Prod.mk.injEq] at h
            rw [← h.1]
            intro part hmem
            rw [List.mem_singleton] at hmem
            subst hmem
            obtain ⟨tgt, e2, hdn⟩ := decodeCompressedName_ok_elim data fuel b (pos + 1) part e hcomp
            exact hnameok tgt part e2 hdn
          | err => rw [hcomp] at h; cases h
          | outOfFuel => rw [hcomp] at h; cases h
        · push_neg at hptr
          rw [decodeNameCore_literal_general data fuel pos b hb hz hptr] at h
          cases hrd : SeekableBytesReader.read ⟨data, pos + 1⟩ b with
          | none => rw [hrd] at h; cases h
          | some out2 =>
            obtain ⟨part0, r2⟩ := out2
            rw [hrd] at h
            replace h : (match decodeNameCore data fuel r2.position with
              | .ok (ps2, e2) => DecodeResult.ok (part0 :: ps2, e2)
              | .err => DecodeResult.err
              | .outOfFuel => DecodeResult.outOfFuel) = DecodeResult.ok (parts, endPos) := h
            cases hrest : decodeNameCore data fuel r2.position with
            | ok w =>
              obtain ⟨parts2, e2⟩ := w
              rw [hrest] at h
              replace h : DecodeResult.ok (part0 :: parts2, e2)
                  = DecodeResult.ok (parts, endPos) := h
              simp only [DecodeResult.ok.injEq, Prod.mk.injEq] at h
              rw [← h.1]
              intro part hmem
              rw [List.mem_cons] at hmem
              rcases hmem with hmem | hmem
              · subst hmem
                exact read_ne_nil data (pos + 1) b part r2 hrd hz
              · exact ih r2.position parts2 e2 hrest part hmem
            | err => rw [hrest] at h; cases h
            | outOfFuel => rw [hrest] at h; cases h

/-- A successfully decoded name is never the empty byte string. -/
theorem decodeName_ok_ne_nil (data : List Nat) (fuel pos : Nat) (nm : List Nat) (e : Nat)
    (h : decodeName data fuel pos = .ok (nm, e)) : nm ≠ [] := by
  obtain ⟨ps, hcore, hjoin⟩ := decodeName_ok_elim data fuel pos nm e h
  cases hps : ps with
  | nil =>
    rw [hps] at hjoin
    rw [show joinUint8ArrayWithDot [] = none from rfl] at hjoin
    cases hjoin
  | cons p rest =>
    rw [hps] at hjoin
    rw [joinUint8ArrayWithDot_eq_intercalate _ (List.cons_ne_nil p rest)] at hjoin
    injection hjoin with hjoin
    rw [← hjoin]
    refine intercalate_cons_ne_nil p rest ?_
    exact decodeNameCore_parts_ne_nil data fuel pos (p :: rest) e
      (by rw [← hps]; exact hcore) p (List.mem_cons_self p rest)

/-- Payload invariant of records produced by `parseRecord`: a type-A record
carries the dotted-decimal string of the (nonempty) bytes read, and a type-NS
record carries the (nonempty) bytes of a decoded name. -/
theorem parseRecord_inv (data : List Nat) (fuel pos : Nat) (r : DNSRecord) (e : Nat)
    (h : parseRecord data fuel pos = .ok (r, e)) :
    (r.type_ = TYPE_A → ∃ bs, bs ≠ [] ∧ r.data = .str (ipToString bs)) ∧
    (r.type_ = TYPE_NS → ∃ b, b ≠ [] ∧ r.data = .bytes b) := by
  rw [parseRecord] at h
  cases hn : decodeName data fuel pos with
  | ok v =>
    obtain ⟨name, pos1⟩ := v
    rw [hn] at h
    simp only at h
    cases hrd : SeekableBytesReader.read ⟨data, pos1⟩ 10 with
    | none => rw [hrd] at h; cases h
    | some out =>
      obtain ⟨bytes, r2⟩ := out
      rw [hrd] at h
      by_cases hlen : bytes.length < 10
      · simp only [if_pos hlen] at h
        cases h
      · simp only [if_neg hlen] at h
        by_cases hNS : bytes.getD 0 0 * 256 + bytes.getD 1 0 = TYPE_NS
        · simp only [if_pos hNS] at h
          cases hn2 : decodeName data fuel r2.position with
          | ok w =>
            obtain ⟨nsName, pos3⟩ := w
            rw [hn2] at h
            replace h : DecodeResult.ok
                (({ name := name, type_ := bytes.getD 0 0 * 256 + bytes.getD 1 0,
                    class_ := bytes.getD 2 0 * 256 + bytes.getD 3 0,
                    ttl := ((bytes.getD 4 0 * 256 + bytes.getD 5 0) * 256 + bytes.getD 6 0) * 256
                      + bytes.getD 7 0,
                    data := RecordData.bytes nsName } : DNSRecord), pos3)
                = DecodeResult.ok (r, e) := h
            simp only [DecodeResult.ok.injEq, Prod.mk.injEq] at h
            obtain ⟨hrec, _⟩ := h
            subst hrec
            refine ⟨fun hA => absurd (hNS.symm.trans hA) (by rw [TYPE_A, TYPE_NS]; decide), ?_⟩
            intro _
            exact ⟨nsName, decodeName_ok_ne_nil data fuel r2.position nsName pos3 hn2, rfl⟩
          | err => rw [hn2] at h; cases h
          | outOfFuel => rw [hn2] at h; cases h
        · by_cases hA : bytes.getD 0 0 * 256 + bytes.getD 1 0 = TYPE_A
          · simp only [if_neg hNS, if_pos hA] at h
            cases hip : SeekableBytesReader.read ⟨data, r2.position⟩ 4 with
            | none => rw [hip] at h; cases h
            | some out2 =>
              obtain ⟨ipBytes, r3⟩ := out2
              rw [hip] at h
              replace h : DecodeResult.ok
                  (({ name := name, type_ := bytes.getD 0 0 * 256 + bytes.getD 1 0,
                      class_ := bytes.getD 2 0 * 256 + bytes.getD 3 0,
                      ttl := ((bytes.getD 4 0 * 256 + bytes.getD 5 0) * 256 + bytes.getD 6 0) * 256
                        + bytes.getD 7 0,
                      data := RecordData.str (ipToString ipBytes) } : DNSRecord), r3.position)
                  = DecodeResult.ok (r, e) := h
              simp only [DecodeResult.ok.injEq, Prod.mk.injEq] at h
              obtain ⟨hrec, _⟩ := h
              subst hrec
              refine ⟨?_, fun hNS2 => absurd hNS2 hNS⟩
              intro _
              exact ⟨ipBytes, read_ne_nil data r2.position 4 ipBytes r3 hip (by decide), rfl⟩
          · simp only [if_neg hNS, if_neg hA] at h
            cases hraw : SeekableBytesReader.read ⟨data, r2.position⟩
                (bytes.getD 8 0 * 256 + bytes.getD 9 0) with
            | none => rw [hraw] at h; cases h
            | some out2 =>
              obtain ⟨raw, r3⟩ := out2
              rw [hraw] at h
              replace h : DecodeResult.ok
                  (({ name := name, type_ := bytes.getD 0 0 * 256 + bytes.getD 1 0,
                      class_ := bytes.getD 2 0 * 256 + bytes.getD 3 0,
                      ttl := ((bytes.getD 4 0 * 256 + bytes.getD 5 0) * 256 + bytes.getD 6 0) * 256
                        + bytes.getD 7 0,
                      data := RecordData.bytes raw } : DNSRecord), r3.position)
                  = DecodeResult.ok (r, e) := h
              simp only [DecodeResult.ok.injEq, Prod.mk.injEq] at h
              obtain ⟨hrec, _⟩ := h
              subst hrec
              exact ⟨fun hA2 => absurd hA2 hA, fun hNS2 => absurd hNS2 hNS⟩
  | err => rw [hn] at h; cases h
  | outOfFuel => rw [hn] at h; cases h

/-- The payload invariant holds for every record of a parsed section. -/
theorem parseRecords_inv (data : List Nat) (fuel : Nat) :
    ∀ (n pos : Nat) (rs : List DNSRecord) (e : Nat),
      parseRecords data fuel n pos = .ok (rs, e) →
      ∀ r ∈ rs,
        (r.type_ = TYPE_A → ∃ bs, bs ≠ [] ∧ r.data = .str (ipToString bs)) ∧
        (r.type_ = TYPE_NS → ∃ b, b ≠ [] ∧ r.data = .bytes b) := by
  intro n
  induction n with
  | zero =>
    intro pos rs e h
    rw [parseRecords] at h
    replace h : DecodeResult.ok (([] : List DNSRecord), pos) = DecodeResult.ok (rs, e) := h
    simp only [DecodeResult.ok.injEq, Prod.mk.injEq] at h
    rw [← h.1]
    intro r hr
    exact absurd hr (List.not_mem_nil r)
  | succ n ih =>
    intro pos rs e h
    rw [parseRecords] at h
    cases hr1 : parseRecord data fuel pos with
    | ok v =>
      obtain ⟨rec, pos1⟩ := v
      rw [hr1] at h
      replace h : (match parseRecords data fuel n pos1 with
        | .ok (rs2, e2) => DecodeResult.ok (rec :: rs2, e2)
        | .err => DecodeResult.err
        | .outOfFuel => DecodeResult.outOfFuel) = DecodeResult.ok (rs, e) := h
      cases hrs : parseRecords data fuel n pos1 with
      | ok w =>
        obtain ⟨rs2, e2⟩ := w
        rw [hrs] at h
        replace h : DecodeResult.ok (rec :: rs2, e2) = DecodeResult.ok (rs, e) := h
        simp only [DecodeResult.ok.injEq, Prod.mk.injEq] at h
        rw [← h.1]
        intro r hr
        rw [List.mem_cons] at hr
        rcases hr with hr | hr
        · subst hr
          exact parseRecord_inv data fuel pos r pos1 hr1
        · exact ih pos1 rs2 e2 hrs r hr
      | err => rw [hrs] at h; cases h
      | outOfFuel => rw [hrs] at h; cases h
    | err => rw [hr1] at h; cases h
    | outOfFuel => rw [hr1] at h; cases h

/-- The payload invariant holds for every record of a parsed packet. -/
theorem parseDNSPacket_record_inv (data : List Nat) (fuel : Nat) (p : DNSPacket)
    (h : parseDNSPacket data fuel = .ok p) :
    ∀ r ∈ p.answers ++ p.authorities ++ p.additionals,
      (r.type_ = TYPE_A → ∃ bs, bs ≠ [] ∧ r.data = .str (ipToString bs)) ∧
      (r.type_ = TYPE_NS → ∃ b, b ≠ [] ∧ r.data = .bytes b) := by
  rw [parseDNSPacket] at h
  cases hh : parseHeader data 0 with
  | ok hv =>
    obtain ⟨header, pos1⟩ := hv
    rw [hh] at h
    replace h : (match parseQuestions data fuel header.numQuestions pos1 with
      | .ok (questions, pos2) =>
        match parseRecords data fuel header.numAnswers pos2 with
        | .ok (answers, pos3) =>
          match parseRecords data fuel header.numAuthorities pos3 with
          | .ok (authorities, pos4) =>
            match parseRecords data fuel header.numAdditionals pos4 with
            | .ok (additionals, _) =>
              DecodeResult.ok (⟨header, questions, answers, authorities, additionals⟩ : DNSPacket)
            | .err => DecodeResult.err
            | .outOfFuel => DecodeResult.outOfFuel
          | .err => DecodeResult.err
          | .outOfFuel => DecodeResult.outOfFuel
        | .err => DecodeResult.err
        | .outOfFuel => DecodeResult.outOfFuel
      | .err => DecodeResult.err
      | .outOfFuel => DecodeResult.outOfFuel) = DecodeResult.ok p := h
    cases hq : parseQuestions data fuel header.numQuestions pos1 with
    | ok qv =>
      obtain ⟨questions, pos2⟩ := qv
      rw [hq] at h
      replace h : (match parseRecords data fuel header.numAnswers pos2 with
        | .ok (answers, pos3) =>
          match parseRecords data fuel header.numAuthorities pos3 with
          | .ok (authorities, pos4) =>
            match parseRecords data fuel header.numAdditionals pos4 with
            | .ok (additionals, _) =>
              DecodeResult.ok (⟨header, questions, answers, authorities, additionals⟩ : DNSPacket)
            | .err => DecodeResult.err
            | .outOfFuel => DecodeResult.outOfFuel
          | .err => DecodeResult.err
          | .outOfFuel => DecodeResult.outOfFuel
        | .err => DecodeResult.err
        | .outOfFuel => DecodeResult.outOfFuel) = DecodeResult.ok p := h
      cases ha : parseRecords data fuel header.numAnswers pos2 with
      | ok av =>
        obtain ⟨answers, pos3⟩ := av
        rw [ha] at h
        replace h : (match parseRecords data fuel header.numAuthorities pos3 with
          | .ok (authorities, pos4) =>
            match parseRecords data fuel header.numAdditionals pos4 with
            | .ok (additionals, _) =>
              DecodeResult.ok (⟨header, questions, answers, authorities, additionals⟩ : DNSPacket)
            | .err => DecodeResult.err
            | .outOfFuel => DecodeResult.outOfFuel
          | .err => DecodeResult.err
          | .outOfFuel => DecodeResult.outOfFuel) = DecodeResult.ok p := h
        cases hau : parseRecords data fuel header.numAuthorities pos3 with
        | ok auv =>
          obtain ⟨authorities, pos4⟩ := auv
          rw [hau] at h
          replace h : (match parseRecords data fuel header.numAdditionals pos4 with
            | .ok (additionals, _) =>
              DecodeResult.ok (⟨header, questions, answers, authorities, additionals⟩ : DNSPacket)
            | .err => DecodeResult.err
            | .outOfFuel => DecodeResult.outOfFuel) = DecodeResult.ok p := h
          cases had : parseRecords data fuel header.numAdditionals pos4 with
          | ok adv =>
            obtain ⟨additionals, pos5⟩ := adv
            rw [had] at h
            replace h : DecodeResult.ok
                (⟨header, questions, answers, authorities, additionals⟩ : DNSPacket)
                = DecodeResult.ok p := h
            injection h with h
            subst h
            intro r hr
            simp only [List.mem_append] at hr
            rcases hr with (hr | hr) | hr
            · exact parseRecords_inv data fuel header.numAnswers pos2 answers pos3 ha r hr
            · exact parseRecords_inv data fuel header.numAuthorities pos3 authorities pos4 hau r hr
            · exact parseRecords_inv data fuel header.numAdditionals pos4 additionals pos5 had r hr
          | err => rw [had] at h; cases h
          | outOfFuel => rw [had] at h; cases h
        | err => rw [hau] at h; cases h
        | outOfFuel => rw [hau] at h; cases h
      | err => rw [ha] at h; cases h
      | outOfFuel => rw [ha] at h; cases h
    | err => rw [hq] at h; cases h
    | outOfFuel => rw [hq] at h; cases h
  | err => rw [hh] at h; cases h
  | outOfFuel => rw [hh] at h; cases h

/-! ## Characterizing the getters and the resolve decision -/

theorem getAnswer_some (p : DNSPacket) (a : DNSRecord)
    (hf : p.answers.find? (fun answer => answer.type_ == TYPE_A) = some a) :
    getAnswer p = a.data := by
  rw [getAnswer, hf]

theorem getAnswer_none (p : DNSPacket)
    (hf : p.answers.find? (fun answer => answer.type_ == TYPE_A) = none) :
    getAnswer p = .str [] := by
  rw [getAnswer, hf]

theorem getNameserverIp_some (p : DNSPacket) (a : DNSRecord)
    (hf : p.additionals.find? (fun additional => additional.type_ == TYPE_A) = some a) :
    getNameserverIp p = a.data := by
  rw [getNameserverIp, hf]

theorem getNameserverIp_none (p : DNSPacket)
    (hf : p.additionals.find? (fun additional => additional.type_ == TYPE_A) = none) :
    getNameserverIp p = .str [] := by
  rw [getNameserverIp, hf]

theorem getNameserver_some (p : DNSPacket) (a : DNSRecord)
    (hf : p.authorities.find? (fun answer => answer.type_ == TYPE_NS) = some a) :
    getNameserver p = a.data.asString := by
  rw [getNameserver, hf]

theorem getNameserver_none (p : DNSPacket)
    (hf : p.authorities.find? (fun answer => answer.type_ == TYPE_NS) = none) :
    getNameserver p = [] := by
  rw [getNameserver, hf]

/-- The function `resolveStep` with its local bindings inlined. -/
theorem resolveStep_eq (p : DNSPacket) : resolveStep p =
    if jsTruthy (getAnswer p) then .answer (getAnswer p)
    else if jsTruthy (getNameserverIp p) then .useGlue (getNameserverIp p)
    else if !(getNameserver p).isEmpty then .recurse (getNameserver p)
    else .fail := rfl

/-- An `answer` decision always carries `getAnswer` and only fires when that
value is truthy. -/
theorem resolveStep_answer_elim (p : DNSPacket) (x : RecordData)
    (h : resolveStep p = .answer x) :
    x = getAnswer p ∧ jsTruthy (getAnswer p) = true := by
  rw [resolveStep_eq] at h
  by_cases h1 : jsTruthy (getAnswer p) = true
  · rw [if_pos h1] at h
    injection h with h'
    exact ⟨h'.symm, h1⟩
  · rw [if_neg h1] at h
    by_cases h2 : jsTruthy (getNameserverIp p) = true
    · rw [if_pos h2] at h; cases h
    · rw [if_neg h2] at h
      by_cases h3 : (!(getNameserver p).isEmpty) = true
      · rw [if_pos h3] at h; cases h
      · rw [if_neg h3] at h; cases h

/-- The function `getAnswer` is either the sentinel or the data of some type-A answer. -/
theorem getAnswer_cases (p : DNSPacket) :
    getAnswer p = .str [] ∨
      ∃ a ∈ p.answers, a.type_ = TYPE_A ∧ getAnswer p = a.data := by
  cases hf : p.answers.find? (fun answer => answer.type_ == TYPE_A) with
  | none => exact Or.inl (getAnswer_none p hf)
  | some a =>
    exact Or.inr ⟨a, List.mem_of_find?_eq_some hf, (by simpa using List.find?_some hf),
      getAnswer_some p a hf⟩

/-- C1: after decoding a reply, the resolver's decision follows the priority
order answers / additionals / authorities, each section consulted for its
first matching record in wire order: the first type-A answer's address wins;
otherwise the first type-A additional (the glue) becomes the next nameserver
without any recursion into nameserver-name resolution; otherwise the first
type-NS authority's name is resolved recursively with record type A starting
from the root and the result becomes the next nameserver; otherwise the
resolver throws.  The first conjunct characterizes the decision, the second
shows the loop acting on it. -/
theorem c1 (p : DNSPacket) (network : List Nat → List Nat → Nat → List Nat)
    (fuel : Nat) (d ns : List Nat) (t : Nat)
    (hparse : parseDNSPacket (network ns d t) (fuel + 1) = .ok p) :
    (resolveStep p =
      match p.answers.find? (fun answer => answer.type_ == TYPE_A) with
      | some a => .answer a.data
      | none =>
        match p.additionals.find? (fun additional => additional.type_ == TYPE_A) with
        | some a => .useGlue a.data
        | none =>
          match p.authorities.find? (fun answer => answer.type_ == TYPE_NS) with
          | some a => .recurse a.data.asString
          | none => .fail) ∧
    resolve network (fuel + 1) d t ns =
      (match resolveStep p with
       | .answer (.str ip) => .ok ip
       | .answer (.bytes b) => .ok b
       | .useGlue nsIP => resolve network fuel d t nsIP.asString
       | .recurse nsDomain =>
         match resolve network fuel nsDomain TYPE_A rootNameserver with
         | .ok nameserver2 => resolve network fuel d t nameserver2
         | .err => .err
         | .outOfFuel => .outOfFuel
       | .fail => .err) := by
  have hinv := parseDNSPacket_record_inv (network ns d t) (fuel + 1) p hparse
  constructor
  · rw [resolveStep_eq]
    cases hf1 : p.answers.find? (fun answer => answer.type_ == TYPE_A) with
    | some a =>
      have hga := getAnswer_some p a hf1
      obtain ⟨bs, hbs, hdata⟩ := (hinv a (by simp [List.mem_of_find?_eq_some hf1])).1
        ((by simpa using List.find?_some hf1))
      have ht : jsTruthy (getAnswer p) = true := by
        rw [hga, hdata, jsTruthy]
        simp [List.isEmpty_iff, ipToString_ne_nil bs hbs]
      rw [if_pos ht, hga]
    | none =>
      have hga := getAnswer_none p hf1
      have ht : ¬ jsTruthy (getAnswer p) = true := by rw [hga]; decide
      rw [if_neg ht]
      cases hf2 : p.additionals.find? (fun additional => additional.type_ == TYPE_A) with
      | some a =>
        have hgi := getNameserverIp_some p a hf2
        obtain ⟨bs, hbs, hdata⟩ := (hinv a (by simp [List.mem_of_find?_eq_some hf2])).1
          ((by simpa using List.find?_some hf2))
        have ht2 : jsTruthy (getNameserverIp p) = true := by
          rw [hgi, hdata, jsTruthy]
          simp [List.isEmpty_iff, ipToString_ne_nil bs hbs]
        rw [if_pos ht2, hgi]
      | none =>
        have hgi := getNameserverIp_none p hf2
        have ht2 : ¬ jsTruthy (getNameserverIp p) = true := by rw [hgi]; decide
        rw [if_neg ht2]
        cases hf3 : p.authorities.find? (fun answer => answer.type_ == TYPE_NS) with
        | some a =>
          have hgn := getNameserver_some p a hf3
          obtain ⟨b, hb, hdata⟩ := (hinv a (by simp [List.mem_of_find?_eq_some hf3])).2
            ((by simpa using List.find?_some hf3))
          have ht3 : (!(getNameserver p).isEmpty) = true := by
            rw [hgn, hdata, RecordData.asString]
            simp [List.isEmpty_iff, hb]
          rw [if_pos ht3, hgn]
        | none =>
          have hgn := getNameserver_none p hf3
          have ht3 : ¬ (!(getNameserver p).isEmpty) = true := by rw [hgn]; decide
          rw [if_neg ht3]
  · rw [resolve, hparse]

/-- A synthetic reply with no answer, an authority NS record ("ns") and an
additional A glue record (8.8.8.8) for it — the spec's decision-precedence
scenario. -/
def glueReplyBytes : List Nat :=
  [0, 1, 0, 0, 0, 0, 0, 0, 0, 1, 0, 1] ++
    [1, 97, 0, 0, 2, 0, 1, 0, 0, 0, 5, 0, 4, 2, 110, 115, 0] ++
    [1, 97, 0, 0, 1, 0, 1, 0, 0, 0, 5, 0, 4, 8, 8, 8, 8]

/-- A transport that answers every query with the glue referral above. -/
def glueNetwork : List Nat → List Nat → Nat → List Nat := fun _ _ _ => glueReplyBytes

/-- The decoding of `glueReplyBytes`. -/
def gluePacket : DNSPacket :=
  ⟨⟨1, 0, 0, 0, 1, 1⟩, [], [],
    [⟨[97], 2, 1, 5, .bytes [110, 115]⟩],
    [⟨[97], 1, 1, 5, .str [56, 46, 56, 46, 56, 46, 56]⟩]⟩

/-- Witness for C1 on the glue-precedence packet: the authority NS record and
the additional A glue record are both present and the decision is the glue
address (no recursion), after which the loop continues with nameserver
"8.8.8.8". -/
theorem c1_w :
    (resolveStep gluePacket =
      match gluePacket.answers.find? (fun answer => answer.type_ == TYPE_A) with
      | some a => .answer a.data
      | none =>
        match gluePacket.additionals.find? (fun additional => additional.type_ == TYPE_A) with
        | some a => .useGlue a.data
        | none =>
          match gluePacket.authorities.find? (fun answer => answer.type_ == TYPE_NS) with
          | some a => .recurse a.data.asString
          | none => .fail) ∧
    resolve glueNetwork (19 + 1) [101] 1 rootNameserver =
      (match resolveStep gluePacket with
       | .answer (.str ip) => .ok ip
       | .answer (.bytes b) => .ok b
       | .useGlue nsIP => resolve glueNetwork 19 [101] 1 nsIP.asString
       | .recurse nsDomain =>
         match resolve glueNetwork 19 nsDomain TYPE_A rootNameserver with
         | .ok nameserver2 => resolve glueNetwork 19 [101] 1 nameserver2
         | .err => .err
         | .outOfFuel => .outOfFuel
       | .fail => .err) :=
  c1 gluePacket glueNetwork 19 [101] rootNameserver 1 (by decide)

/-- A successful `resolve` never returns the empty string: the answer branch
only fires on a truthy value, and for decoded packets that value is a
nonempty dotted-decimal string. -/
theorem resolve_ok_ne_nil : ∀ (fuel : Nat) (network : List Nat → List Nat → Nat → List Nat)
    (d : List Nat) (t : Nat) (ns s : List Nat),
    resolve network fuel d t ns = .ok s → s ≠ [] := by
  intro fuel
  induction fuel with
  | zero =>
    intro network d t ns s h
    rw [resolve] at h
    cases h
  | succ fuel ih =>
    intro network d t ns s h
    rw [resolve] at h
    cases hp : parseDNSPacket (network ns d t) (fuel + 1) with
    | ok p =>
      rw [hp] at h
      replace h : (match resolveStep p with
        | .answer (.str ip) => DecodeResult.ok ip
        | .answer (.bytes b) => DecodeResult.ok b
        | .useGlue nsIP => resolve network fuel d t nsIP.asString
        | .recurse nsDomain =>
          match resolve network fuel nsDomain TYPE_A rootNameserver with
          | .ok nameserver2 => resolve network fuel d t nameserver2
          | .err => DecodeResult.err
          | .outOfFuel => DecodeResult.outOfFuel
        | .fail => DecodeResult.err) = DecodeResult.ok s := h
      cases hstep : resolveStep p with
      | answer x =>
        rw [hstep] at h
        obtain ⟨hx, htruthy⟩ := resolveStep_answer_elim p x hstep
        cases x with
        | str ip =>
          replace h : DecodeResult.ok ip = DecodeResult.ok s := h
          injection h with h'
          rw [← h']
          rw [← hx, jsTruthy] at htruthy
          simpa [List.isEmpty_iff] using htruthy
        | bytes b =>
          exfalso
          have hinv := parseDNSPacket_record_inv (network ns d t) (fuel + 1) p hp
          rcases getAnswer_cases p with hcase | ⟨a, hmem, htyA, hdata⟩
          · rw [hcase] at hx
            cases hx
          · obtain ⟨bs, _, hstr⟩ := (hinv a (by simp [hmem])).1 htyA
            rw [hdata, hstr] at hx
            cases hx
      | useGlue nsIP =>
        rw [hstep] at h
        replace h : resolve network fuel d t nsIP.asString = DecodeResult.ok s := h
        exact ih network d t nsIP.asString s h
      | recurse nsDomain =>
        rw [hstep] at h
        replace h : (match resolve network fuel nsDomain TYPE_A rootNameserver with
          | .ok nameserver2 => resolve network fuel d t nameserver2
          | .err => DecodeResult.err
          | .outOfFuel => DecodeResult.outOfFuel) = DecodeResult.ok s := h
        cases hrec : resolve network fuel nsDomain TYPE_A rootNameserver with
        | ok nameserver2 =>
          rw [hrec] at h
          replace h : resolve network fuel d t nameserver2 = DecodeResult.ok s := h
          exact ih network d t nameserver2 s h
        | err => rw [hrec] at h; cases h
        | outOfFuel => rw [hrec] at h; cases h
      | fail => rw [hstep] at h; cases h
    | err => rw [hp] at h; cases h
    | outOfFuel => rw [hp] at h; cases h

/-- C10: absence of a match is signalled in-band by the empty string.  For a
decoded packet, each getter returns the data of the first record of the
required type in its section — which for type A is the dotted-decimal
`ipToString` of the (nonempty) address bytes, hence never the empty string —
or the empty-string sentinel when the section has none, so the sentinel can
never coincide with a real address; and a resolve that returns successfully
never returns the empty string. -/
theorem c10 (data : List Nat) (fuel : Nat) (p : DNSPacket)
    (network : List Nat → List Nat → Nat → List Nat) (fuel2 t : Nat)
    (d ns s : List Nat)
    (hp : parseDNSPacket data fuel = .ok p)
    (hres : resolve network fuel2 d t ns = .ok s) :
    (match p.answers.find? (fun answer => answer.type_ == TYPE_A) with
     | some a => getAnswer p = a.data ∧ ∃ bs, bs ≠ [] ∧ a.data = .str (ipToString bs)
     | none => getAnswer p = .str []) ∧
    (match p.additionals.find? (fun additional => additional.type_ == TYPE_A) with
     | some a => getNameserverIp p = a.data ∧ ∃ bs, bs ≠ [] ∧ a.data = .str (ipToString bs)
     | none => getNameserverIp p = .str []) ∧
    (match p.authorities.find? (fun answer => answer.type_ == TYPE_NS) with
     | some a => getNameserver p = a.data.asString ∧ a.data.asString ≠ []
     | none => getNameserver p = []) ∧
    s ≠ [] := by
  have hinv := parseDNSPacket_record_inv data fuel p hp
  refine ⟨?_, ?_, ?_, resolve_ok_ne_nil fuel2 network d t ns s hres⟩
  · cases hf : p.answers.find? (fun answer => answer.type_ == TYPE_A) with
    | some a =>
      exact ⟨getAnswer_some p a hf,
        (hinv a (by simp [List.mem_of_find?_eq_some hf])).1
          (by simpa using List.find?_some hf)⟩
    | none => exact getAnswer_none p hf
  · cases hf : p.additionals.find? (fun additional => additional.type_ == TYPE_A) with
    | some a =>
      exact ⟨getNameserverIp_some p a hf,
        (hinv a (by simp [List.mem_of_find?_eq_some hf])).1
          (by simpa using List.find?_some hf)⟩
    | none => exact getNameserverIp_none p hf
  · cases hf : p.authorities.find? (fun answer => answer.type_ == TYPE_NS) with
    | some a =>
      obtain ⟨b, hb, hdata⟩ := (hinv a (by simp [List.mem_of_find?_eq_some hf])).2
        (by simpa using List.find?_some hf)
      refine ⟨getNameserver_some p a hf, ?_⟩
      rw [hdata, RecordData.asString]
      exact hb
    | none => exact getNameserver_none p hf

/-- The reply used by the C10 witness: one A answer 9.9.9.9 besides the glue
sections. -/
def answerReplyBytes : List Nat :=
  [0, 1, 0, 0, 0, 0, 0, 1, 0, 0, 0, 0] ++
    [1, 97, 0, 0, 1, 0, 1, 0, 0, 0, 5, 0, 4, 9, 9, 9, 9]

def answerNetwork : List Nat → List Nat → Nat → List Nat := fun _ _ _ => answerReplyBytes

/-- Witness for C10: the glue packet exercises both the sentinel (empty
answers) and the first-match cases, and a two-step resolve against a network
that returns one A answer succeeds with the nonempty string "9.9.9.9". -/
theorem c10_w :
    (match gluePacket.answers.find? (fun answer => answer.type_ == TYPE_A) with
     | some a => getAnswer gluePacket = a.data ∧ ∃ bs, bs ≠ [] ∧ a.data = .str (ipToString bs)
     | none => getAnswer gluePacket = .str []) ∧
    (match gluePacket.additionals.find? (fun additional => additional.type_ == TYPE_A) with
     | some a => getNameserverIp gluePacket = a.data ∧
         ∃ bs, bs ≠ [] ∧ a.data = .str (ipToString bs)
     | none => getNameserverIp gluePacket = .str []) ∧
    (match gluePacket.authorities.find? (fun answer => answer.type_ == TYPE_NS) with
     | some a => getNameserver gluePacket = a.data.asString ∧ a.data.asString ≠ []
     | none => getNameserver gluePacket = []) ∧
    [57, 46, 57, 46, 57, 46, 57] ≠ ([] : List Nat) :=
  c10 glueReplyBytes 20 gluePacket answerNetwork 2 1 [101] rootNameserver
    [57, 46, 57, 46, 57, 46, 57] (by decide) (by decide)

/-! ## C4: round trip

The codec's encoder (Part 1) can build a header and questions; the
serialization of a whole buildable message generalizes `buildQuery` from one
question to a counted list of questions. -/

/-- The wire bytes of a question whose `name` field holds the domain name:
`buildQuery`'s `questionToBytes ∘ (encodeDnsName on the name)`. -/
def encodeQuestionBytes (q : DNSQuestion) : List Nat :=
  questionToBytes ⟨encodeDnsName q.name, q.type_, q.class_⟩

/-- Serialization of a message the codec can build: header bytes, then each
question's bytes, concatenated — `buildQuery` generalized to `n` questions
(record sections have no encoder in the source and stay empty). -/
def encodeMessage (packet : DNSPacket) : List Nat :=
  headerToBytes packet.header ++ (packet.questions.map encodeQuestionBytes).flatten

/-- The function `buildQuery` is the single-question instance of `encodeMessage`. -/
theorem encodeMessage_buildQuery (id : Nat) (domainName : List Nat) (recordType : Nat) :
    buildQuery id domainName recordType =
      encodeMessage ⟨⟨id, 0, 1, 0, 0, 0⟩, [⟨domainName, recordType, CLASS_IN⟩], [], [], []⟩ := by
  simp [buildQuery, encodeMessage, encodeQuestionBytes]

/-- The label part of a wire name (everything before the zero terminator). -/
def nameWire (parts : List (List Nat)) : List Nat :=
  (parts.map (fun part => (part.length % 256) :: part)).flatten

theorem encodeDnsName_eq (domainName : List Nat) :
    encodeDnsName domainName = nameWire (domainName.splitOn 46) ++ [0] := rfl

theorem pack_length (vs : List Nat) :
    (packUnsignedShortsBigEndian vs).length = 2 * vs.length := by
  induction vs with
  | nil => rfl
  | cons v vs ih =>
    show ((v % 65536 / 256) :: (v % 256) :: packUnsignedShortsBigEndian vs).length = _
    simp only [List.length_cons, ih, List.length_cons]
    omega

theorem unpack_pack (vs : List Nat) :
    unpackUnsignedShortsBigEndian (packUnsignedShortsBigEndian vs) = vs.map (· % 65536) := by
  induction vs with
  | nil => rfl
  | cons v vs ih =>
    show unpackUnsignedShortsBigEndian
        ((v % 65536 / 256) :: (v % 256) :: packUnsignedShortsBigEndian vs) = _
    rw [unpackUnsignedShortsBigEndian]
    have harith : v % 65536 / 256 * 256 + v % 256 = v % 65536 := by omega
    rw [harith, ih]
    rfl

/-- The simple name loop on the wire form of a label list: it collects
exactly those labels and stops after the zero terminator. -/
theorem decodeNameSimpleCore_encoded :
    ∀ (parts : List (List Nat)) (data pre post : List Nat) (pos fuel : Nat),
      data = pre ++ (nameWire parts ++ [0] ++ post) → pos = pre.length →
      (∀ part ∈ parts, 1 ≤ part.length ∧ part.length ≤ 63) → parts.length < fuel →
      decodeNameSimpleCore data fuel pos = .ok (parts, pos + (nameWire parts).length + 1) := by
  intro parts
  induction parts with
  | nil =>
    intro data pre post pos fuel hdata hpos hlab hfuel
    obtain ⟨fuel, rfl⟩ : ∃ f, fuel = f + 1 := ⟨fuel - 1, by omega⟩
    rw [decodeNameSimpleCore]
    rw [read_exact data pre [0] post pos 1 (by rw [hdata]; simp [nameWire]) hpos rfl
      (by simp)]
    simp [nameWire]
  | cons part parts ihp =>
    intro data pre post pos fuel hdata hpos hlab hfuel
    obtain ⟨fuel, rfl⟩ : ∃ f, fuel = f + 1 := ⟨fuel - 1, by omega⟩
    obtain ⟨hp1, hp63⟩ := hlab part (List.mem_cons_self part parts)
    have hmod : part.length % 256 = part.length := Nat.mod_eq_of_lt (by omega)
    rw [decodeNameSimpleCore]
    rw [read_exact data pre [part.length % 256] (part ++ (nameWire parts ++ [0] ++ post))
      pos 1 (by rw [hdata]; simp [nameWire, List.append_assoc]) hpos rfl (by simp)]
    have hnz : ¬ part.length % 256 = 0 := by omega
    simp only [List.headD_cons, if_neg hnz]
    rw [read_exact data (pre ++ [part.length % 256]) part (nameWire parts ++ [0] ++ post)
      (pos + 1) (part.length % 256)
      (by rw [hdata]; simp [nameWire, List.append_assoc])
      (by simp [hpos]) hmod (by intro hnil; rw [hnil] at hp1; simp at hp1)]
    have hrec := ihp data (pre ++ [part.length % 256] ++ part) post
      (pos + 1 + part.length % 256) fuel
      (by rw [hdata]; simp [nameWire, List.append_assoc])
      (by simp [hpos, hmod]; omega)
      (fun q hq => hlab q (List.mem_cons_of_mem part hq))
      (by simp at hfuel; omega)
    simp only [hrec]
    have harith : pos + 1 + part.length % 256 + (nameWire parts).length + 1
        = pos + (nameWire (part :: parts)).length + 1 := by
      simp only [nameWire, List.map_cons, List.flatten_cons, List.length_append,
        List.length_cons, hmod]
      omega
    rw [harith]

theorem splitOn_ne_nil (domainName : List Nat) : domainName.splitOn 46 ≠ [] := by
  rw [List.splitOn]
  exact List.splitOnP_ne_nil _ _

/-- The function `decodeNameSimple` inverts `encodeDnsName`: splitting on dots, wiring the
labels, decoding and re-joining with dots gives back the original name
bytes. -/
theorem decodeNameSimple_encoded (domainName data pre post : List Nat) (pos fuel : Nat)
    (hdata : data = pre ++ (encodeDnsName domainName ++ post)) (hpos : pos = pre.length)
    (hlab : ∀ part ∈ domainName.splitOn 46, 1 ≤ part.length ∧ part.length ≤ 63)
    (hfuel : (domainName.splitOn 46).length < fuel) :
    decodeNameSimple data fuel pos =
      .ok (domainName, pos + (encodeDnsName domainName).length) := by
  have hcore := decodeNameSimpleCore_encoded (domainName.splitOn 46) data pre post pos fuel
    (by rw [hdata, encodeDnsName_eq]) hpos hlab hfuel
  rw [decodeNameSimple, hcore]
  simp only [joinUint8ArrayWithDot_eq_intercalate (domainName.splitOn 46)
    (splitOn_ne_nil domainName)]
  rw [List.intercalate_splitOn]
  have hlen : pos + (nameWire (domainName.splitOn 46)).length + 1
      = pos + (encodeDnsName domainName).length := by
    rw [encodeDnsName_eq]
    simp only [List.length_append, List.length_cons, List.length_nil]
    omega
  rw [hlen]

/-- The function `parseQuestion` inverts the question encoder: name, 16-bit type, 16-bit
class come back unchanged. -/
theorem parseQuestion_encoded (q : DNSQuestion) (data pre post : List Nat) (pos fuel : Nat)
    (hdata : data = pre ++ (encodeQuestionBytes q ++ post)) (hpos : pos = pre.length)
    (hlab : ∀ part ∈ q.name.splitOn 46, 1 ≤ part.length ∧ part.length ≤ 63)
    (ht : q.type_ < 65536) (hc : q.class_ < 65536)
    (hfuel : (q.name.splitOn 46).length < fuel) :
    parseQuestion data fuel pos = .ok (q, pos + (encodeQuestionBytes q).length) := by
  rw [parseQuestion]
  have hname := decodeNameSimple_encoded q.name data pre
    (packUnsignedShortsBigEndian [q.type_, q.class_] ++ post) pos fuel
    (by rw [hdata]; simp [encodeQuestionBytes, questionToBytes, List.append_assoc])
    hpos hlab hfuel
  simp only [hname]
  have hne : packUnsignedShortsBigEndian [q.type_, q.class_] ≠ [] := by
    intro hnil
    have hl := congrArg List.length hnil
    rw [pack_length] at hl
    simp at hl
  rw [read_exact data (pre ++ encodeDnsName q.name)
    (packUnsignedShortsBigEndian [q.type_, q.class_]) post
    (pos + (encodeDnsName q.name).length) 4
    (by rw [hdata]; simp [encodeQuestionBytes, questionToBytes, List.append_assoc])
    (by simp [hpos]) (by rw [pack_length]; rfl) hne]
  have hlt : ¬ (packUnsignedShortsBigEndian [q.type_, q.class_]).length < 4 := by
    rw [pack_length]
    simp
  simp only [if_neg hlt]
  have hX : (packUnsignedShortsBigEndian [q.type_, q.class_]).getD 0 0 * 256
      + (packUnsignedShortsBigEndian [q.type_, q.class_]).getD 1 0 = q.type_ := by
    show q.type_ % 65536 / 256 * 256 + q.type_ % 256 = q.type_
    omega
  have hY : (packUnsignedShortsBigEndian [q.type_, q.class_]).getD 2 0 * 256
      + (packUnsignedShortsBigEndian [q.type_, q.class_]).getD 3 0 = q.class_ := by
    show q.class_ % 65536 / 256 * 256 + q.class_ % 256 = q.class_
    omega
  rw [hX, hY]
  have harith : pos + (encodeDnsName q.name).length + 4
      = pos + (encodeQuestionBytes q).length := by
    simp only [encodeQuestionBytes, questionToBytes, List.length_append, pack_length,
      List.length_cons, List.length_nil]
    omega
  rw [harith]

/-- The question loop inverts the concatenated question encodings, in
order. -/
theorem parseQuestions_encoded (fuel : Nat) :
    ∀ (qs : List DNSQuestion) (data pre post : List Nat) (pos : Nat),
      data = pre ++ ((qs.map encodeQuestionBytes).flatten ++ post) → pos = pre.length →
      (∀ q ∈ qs, (∀ part ∈ q.name.splitOn 46, 1 ≤ part.length ∧ part.length ≤ 63) ∧
        q.type_ < 65536 ∧ q.class_ < 65536 ∧ (q.name.splitOn 46).length < fuel) →
      parseQuestions data fuel qs.length pos
        = .ok (qs, pos + ((qs.map encodeQuestionBytes).flatten).length) := by
  intro qs
  induction qs with
  | nil =>
    intro data pre post pos hdata hpos hprops
    rw [show ([] : List DNSQuestion).length = 0 from rfl, parseQuestions]
    simp
  | cons q qs ihq =>
    intro data pre post pos hdata hpos hprops
    obtain ⟨hlab, ht, hc, hfq⟩ := hprops q (List.mem_cons_self q qs)
    rw [show (q :: qs).length = qs.length + 1 from rfl, parseQuestions]
    have hq1 := parseQuestion_encoded q data pre ((qs.map encodeQuestionBytes).flatten ++ post)
      pos fuel (by rw [hdata]; simp [List.append_assoc]) hpos hlab ht hc hfq
    simp only [hq1]
    have hrest := ihq data (pre ++ encodeQuestionBytes q) post
      (pos + (encodeQuestionBytes q).length)
      (by rw [hdata]; simp [List.append_assoc]) (by simp [hpos])
      (fun q2 hq2 => hprops q2 (List.mem_cons_of_mem q hq2))
    simp only [hrest]
    have harith : pos + (encodeQuestionBytes q).length
          + ((qs.map encodeQuestionBytes).flatten).length
        = pos + (((q :: qs).map encodeQuestionBytes).flatten).length := by
      simp only [List.map_cons, List.flatten_cons, List.length_append]
      omega
    rw [harith]

/-- The function `parseHeader` inverts `headerToBytes` for in-range field values. -/
theorem parseHeader_encoded (h : DNSHeader) (data rest : List Nat)
    (hdata : data = headerToBytes h ++ rest)
    (hid : h.id < 65536) (hfl : h.flags < 65536) (hq : h.numQuestions < 65536)
    (ha : h.numAnswers < 65536) (hau : h.numAuthorities < 65536)
    (had : h.numAdditionals < 65536) :
    parseHeader data 0 = .ok (h, 0 + 12) := by
  have hne : headerToBytes h ≠ [] := by
    intro hnil
    have hl := congrArg List.length hnil
    rw [headerToBytes, pack_length] at hl
    simp at hl
  rw [parseHeader]
  rw [read_exact data [] (headerToBytes h) rest 0 12 (by rw [hdata]; rfl) rfl
    (by rw [headerToBytes, pack_length]; rfl) hne]
  have hlt : ¬ (headerToBytes h).length < 12 := by
    rw [headerToBytes, pack_length]
    simp
  simp only [if_neg hlt]
  have hitems : unpackUnsignedShortsBigEndian (headerToBytes h)
      = [h.id % 65536, h.flags % 65536, h.numQuestions % 65536, h.numAnswers % 65536,
        h.numAuthorities % 65536, h.numAdditionals % 65536] := by
    rw [headerToBytes, unpack_pack]
    rfl
  simp only [hitems, List.getD_cons_zero, List.getD_cons_succ,
    Nat.mod_eq_of_lt hid, Nat.mod_eq_of_lt hfl, Nat.mod_eq_of_lt hq,
    Nat.mod_eq_of_lt ha, Nat.mod_eq_of_lt hau, Nat.mod_eq_of_lt had]

/-- C4: decoding the concatenated encoding of any message the codec can
build — a header whose question count matches its question list, no records,
and questions with uncompressed names whose labels are 1–63 bytes — returns
the original message, entry order preserved. -/
theorem c4 (fuel : Nat) (header : DNSHeader) (qs : List DNSQuestion)
    (hq : header.numQuestions = qs.length)
    (ha : header.numAnswers = 0) (hau : header.numAuthorities = 0)
    (had : header.numAdditionals = 0)
    (hid : header.id < 65536) (hfl : header.flags < 65536) (hqc : qs.length < 65536)
    (hprops : ∀ q ∈ qs, (∀ part ∈ q.name.splitOn 46, 1 ≤ part.length ∧ part.length ≤ 63) ∧
      q.type_ < 65536 ∧ q.class_ < 65536 ∧ (q.name.splitOn 46).length < fuel) :
    parseDNSPacket (encodeMessage ⟨header, qs, [], [], []⟩) fuel
      = .ok ⟨header, qs, [], [], []⟩ := by
  have hH := parseHeader_encoded header (encodeMessage ⟨header, qs, [], [], []⟩)
    ((qs.map encodeQuestionBytes).flatten) (by rw [encodeMessage]) hid hfl
    (by rw [hq]; exact hqc) (by rw [ha]; decide) (by rw [hau]; decide) (by rw [had]; decide)
  have hQ := parseQuestions_encoded fuel qs (encodeMessage ⟨header, qs, [], [], []⟩)
    (headerToBytes header) [] (0 + 12)
    (by rw [encodeMessage]; simp)
    (by rw [headerToBytes, pack_length]; rfl)
    hprops
  rw [parseDNSPacket]
  simp only [hH]
  rw [hq]
  simp only [hQ, ha, hau, had]
  have hR : ∀ pos, parseRecords (encodeMessage ⟨header, qs, [], [], []⟩) fuel 0 pos
      = .ok ([], pos) := fun pos => rfl
  simp only [hR]

/-- Witness for C4: a message with id 0x1234, one question for "ab.c" type A
class IN round-trips exactly. -/
theorem c4_w :
    parseDNSPacket (encodeMessage ⟨⟨4660, 0, 1, 0, 0, 0⟩,
        [⟨[97, 98, 46, 99], 1, 1⟩], [], [], []⟩) 10
      = .ok ⟨⟨4660, 0, 1, 0, 0, 0⟩, [⟨[97, 98, 46, 99], 1, 1⟩], [], [], []⟩ :=
  c4 10 ⟨4660, 0, 1, 0, 0, 0⟩ [⟨[97, 98, 46, 99], 1, 1⟩] rfl rfl rfl rfl
    (by decide) (by decide) (by decide) (by decide)

end DnsWeekend
